import Mathlib

/-!
Verification of the wdeCustomizationUpdater core (Go sources: customisations.go,
registry.go, config.go) through a shallow embedding in Lean.

Modelling conventions:
* Go strings are Lean `String`s; byte slices that only carry text are `String`s.
* `time.Time` values are modelled as `Nat` instants ordered by `<`
  (`After` is `>`, `Before` is `<`).
* Go `uint64` values are `Nat`s; the w32 version probe is an oracle
  `String → Option Nat` returning the packed 64-bit version when present.
* `regexp.MustCompile(p).MatchString(s)` is modelled by an oracle
  `matchRe : String → String → Bool` applied to the pattern text `p` and the
  subject `s`; the pipeline only inspects the boolean answers.
* In-place mutation of Go slices becomes explicit state passing; a Go runtime
  panic (index out of range) is modelled by an `Option` result being `none`.
-/

/-- Store file version in decimal (Go struct FileVersion, customisations.go). -/
structure FileVersion where
  full : Nat
  v1 : Nat
  v2 : Nat
  v3 : Nat
  v4 : Nat
deriving DecidableEq, Repr

/-- Store found customisation files (Go struct CustomisationFile,
customisations.go): registry-key attributes, source path, last write time and
version. -/
structure CustomisationFile where
  FileName : String
  RelativePath : String
  DataFile : String
  EntryPoint : String
  IsMainConfigFile : String
  Optional : String
  GroupName : String
  SourcePath : String
  LastWriteTime : Nat
  Version : FileVersion
deriving DecidableEq, Repr

/-- Compare two files and return which is newer (Go func FindNewFile,
customisations.go lines 223-235). `After`/`Before` on `time.Time` are `>`/`<`
on the modelled instants. -/
def FindNewFile (first second : CustomisationFile) : String :=
  if first.Version.full > second.Version.full then "first"
  else if first.Version.full < second.Version.full then "second"
  else if first.LastWriteTime > second.LastWriteTime then "first"
  else if first.LastWriteTime < second.LastWriteTime then "second"
  else "equal"

/-- Check provided file for redundancy by provided regexp rules (Go func
CheckRedundancy, customisations.go lines 213-220): true iff some rule matches
the file name; rules are kept as pattern texts, matching is the oracle. -/
def CheckRedundancy (matchRe : String → String → Bool)
    (file : CustomisationFile) (redundancyRegexps : List String) : Bool :=
  redundancyRegexps.any fun re => matchRe re file.FileName

/-- One configured redundant-files pattern as preprocessed by
ValidateCollectedFiles (customisations.go lines 165-172): a leading literal
dot appends the end anchor, then the case-insensitivity wrapper is prepended.
Go evaluates `rf[0]` which panics (index out of range) on the empty string;
the panic is modelled by `none`. -/
def buildRedundancyRule (rf : String) : Option String :=
  match rf.data with
  | [] => none
  | c :: _ => some ("(?i)" ++ (if c = '.' then rf ++ "$" else rf))

/-- The configured-pattern loop of ValidateCollectedFiles (customisations.go
lines 165-172), preprocessing each pattern in order; `none` propagates the Go
panic on an empty configured pattern. -/
def buildConfiguredRules : List String → Option (List String)
  | [] => some []
  | rf :: rest =>
    match buildRedundancyRule rf with
    | none => none
    | some r =>
      match buildConfiguredRules rest with
      | none => none
      | some rs => some (r :: rs)

/-- The combined ordered redundancy rule list (customisations.go lines
164-180): each configured pattern preprocessed in order, then the three
hardcoded mandatory patterns. `none` models the Go panic on an empty
configured pattern. -/
def buildRedundancyRules (redundantCFG : List String) : Option (List String) :=
  match buildConfiguredRules redundantCFG with
  | none => none
  | some rules => some (rules ++ ["(?i)readme", "(?i)\\.pdb$", "(?i)\\.md$"])

/-- Go `range` with indices: the elements of a list paired with their
positions, starting at the given index. -/
def withIndexFrom : Nat → List α → List (Nat × α)
  | _, [] => []
  | i, a :: rest => (i, a) :: withIndexFrom (i + 1) rest

/-- One iteration of the inner comparison loop of ValidateCollectedFiles
(customisations.go lines 190-205). State: (statuses, currentFile,
currentFileIndex); the element is (compareFileIndex, compareFile). -/
def innerStep : List String × CustomisationFile × Nat → Nat × CustomisationFile →
    List String × CustomisationFile × Nat
  | (statuses, currentFile, currentFileIndex), (compareFileIndex, compareFile) =>
    if statuses.getD compareFileIndex "" ≠ "" then
      (statuses, currentFile, currentFileIndex)
    else if ¬(currentFile.FileName = compareFile.FileName ∧
        currentFile.RelativePath = compareFile.RelativePath) then
      (statuses, currentFile, currentFileIndex)
    else if FindNewFile currentFile compareFile = "second" then
      (statuses.set currentFileIndex "[SKIP     ]", compareFile, compareFileIndex)
    else
      (statuses.set compareFileIndex "[SKIP     ]", currentFile, currentFileIndex)

/-- The inner comparison loop of ValidateCollectedFiles over the indexed file
list. -/
def innerLoop (ps : List (Nat × CustomisationFile)) (statuses : List String)
    (currentFile : CustomisationFile) (currentFileIndex : Nat) :
    List String × CustomisationFile × Nat :=
  ps.foldl innerStep (statuses, currentFile, currentFileIndex)

/-- One iteration of the outer loop of ValidateCollectedFiles
(customisations.go lines 182-208). State: (resultList, statuses); the element
is (currentFileIndex, currentFile). -/
def outerStep (matchRe : String → String → Bool)
    (list : List CustomisationFile) (redundancyRegexps : List String) :
    List CustomisationFile × List String → Nat × CustomisationFile →
    List CustomisationFile × List String
  | (resultList, statuses), (currentFileIndex, currentFile) =>
    if statuses.getD currentFileIndex "" ≠ "" then (resultList, statuses)
    else if CheckRedundancy matchRe currentFile redundancyRegexps then
      (resultList, statuses.set currentFileIndex "[REDUNDANT]")
    else
      let r := innerLoop (withIndexFrom 0 list) statuses currentFile currentFileIndex
      (resultList ++ [r.2.1], r.1.set r.2.2 "[COPIED   ]")

/-- Sort out all redundant files and older duplicates (Go func
ValidateCollectedFiles, customisations.go lines 158-210). Returns the result
list and the parallel status array; `none` models the Go panic raised while
preprocessing an empty configured pattern. The logger argument of the source
only emits debug output and is dropped. -/
def ValidateCollectedFiles (matchRe : String → String → Bool)
    (list : List CustomisationFile) (redundantCFG : List String) :
    Option (List CustomisationFile × List String) :=
  match buildRedundancyRules redundantCFG with
  | none => none
  | some redundancyRegexps =>
    some ((withIndexFrom 0 list).foldl
      (outerStep matchRe list redundancyRegexps)
      ([], List.replicate list.length ""))

/-! ### Derived descriptions of the duplicate-resolution pass -/

/-- The logical identity of a file: the (FileName, RelativePath) pair. -/
def identKey (cf : CustomisationFile) : String × String :=
  (cf.FileName, cf.RelativePath)

/-- Identity test used by the comparison loops. -/
def matchesId (fn rp : String) (cf : CustomisationFile) : Prop :=
  cf.FileName = fn ∧ cf.RelativePath = rp

instance (fn rp : String) (cf : CustomisationFile) : Decidable (matchesId fn rp cf) :=
  inferInstanceAs (Decidable (_ ∧ _))

/-- The indexed entries of a candidate list sharing a given identity. -/
def groupEntries (fn rp : String) (ps : List (Nat × CustomisationFile)) :
    List (Nat × CustomisationFile) :=
  ps.filter fun p => decide (matchesId fn rp p.2)

/-- One step of the winner recurrence: the running best is replaced exactly
when the comparison declares the challenger newer. -/
def winnerStep (best : CustomisationFile × Nat) (p : Nat × CustomisationFile) :
    CustomisationFile × Nat :=
  if FindNewFile best.1 p.2 = "second" then (p.2, p.1) else best

/-- Fold of the winner recurrence over indexed candidates. -/
def winnerFold (init : CustomisationFile × Nat)
    (ps : List (Nat × CustomisationFile)) : CustomisationFile × Nat :=
  ps.foldl winnerStep init

/-- All indexed entries of `l` with the same identity as `v`, in input order. -/
def groupOf (l : List CustomisationFile) (v : CustomisationFile) :
    List (Nat × CustomisationFile) :=
  groupEntries v.FileName v.RelativePath (withIndexFrom 0 l)

/-- The retained candidate of `v`'s identity group together with its index
(junk value on the empty group, which never arises for members of `l`). -/
def winnerOf (l : List CustomisationFile) (v : CustomisationFile) :
    CustomisationFile × Nat :=
  match groupOf l v with
  | [] => (v, 0)
  | p :: rest => winnerFold (p.2, p.1) rest

/-- The index of the first occurrence of `v`'s identity in `l`. -/
def firstIdxOf (l : List CustomisationFile) (v : CustomisationFile) : Nat :=
  match groupOf l v with
  | [] => 0
  | p :: _ => p.1

/-- Closed form of the status ValidateCollectedFiles assigns to the indexed
entry `p` of list `l`. -/
def specStatus (matchRe : String → String → Bool) (rules : List String)
    (l : List CustomisationFile) (p : Nat × CustomisationFile) : String :=
  if CheckRedundancy matchRe p.2 rules then "[REDUNDANT]"
  else if (winnerOf l p.2).2 = p.1 then "[COPIED   ]"
  else "[SKIP     ]"

/-- Closed form of the full status array. -/
def specStatuses (matchRe : String → String → Bool) (rules : List String)
    (l : List CustomisationFile) : List String :=
  (withIndexFrom 0 l).map (specStatus matchRe rules l)

/-- Closed form of the result list: the winner of each non-redundant identity
group, in order of the group's first occurrence. -/
def specResult (matchRe : String → String → Bool) (rules : List String)
    (l : List CustomisationFile) : List CustomisationFile :=
  ((withIndexFrom 0 l).filter fun p =>
      !CheckRedundancy matchRe p.2 rules && decide (firstIdxOf l p.2 = p.1)).map
    fun p => (winnerOf l p.2).1

/-- Strict "is older than" order on candidates: smaller packed version, or
equal version and earlier last write time. -/
def keyLt (a b : CustomisationFile) : Prop :=
  a.Version.full < b.Version.full ∨
    (a.Version.full = b.Version.full ∧ a.LastWriteTime < b.LastWriteTime)

/-- Concrete sample candidate: an older build of a.dll with a later write
time, used to exercise the duplicate-resolution pass on real data. -/
def sampleOldA : CustomisationFile :=
  { FileName := "a.dll", RelativePath := "", DataFile := "false",
    EntryPoint := "false", IsMainConfigFile := "false", Optional := "false",
    GroupName := "", SourcePath := "", LastWriteTime := 9,
    Version := ⟨1, 0, 0, 0, 1⟩ }

/-- Concrete sample candidate: a newer build of the same a.dll identity with
an earlier write time. -/
def sampleNewA : CustomisationFile :=
  { sampleOldA with LastWriteTime := 1, Version := ⟨2, 0, 0, 0, 2⟩ }

/-- Concrete sample candidate whose file name matches the mandatory readme
redundancy rule. -/
def sampleReadme : CustomisationFile :=
  { sampleOldA with
      FileName := "README.txt", LastWriteTime := 0, Version := ⟨0, 0, 0, 0, 0⟩ }

/-- Concrete regular-expression oracle recognising exactly the pair of the
mandatory readme pattern and the sample readme file name. -/
def readmeMatcher : String → String → Bool :=
  fun p s => p == "(?i)readme" && s == "README.txt"

/-! ### The CustomFiles registry value: constants, encoder and decoder
(registry.go).  The Go decoder is the encoding/xml package (Strict mode)
applied to the ArrayOfApplicationFile document; it is embedded here as a
parser over the character list of the value that recognises the document
family the encoder produces (header line, a sequence of one-line
ApplicationFile elements with double-quoted attributes, the closing tag) and
binds each attribute to the struct field carrying the same attribute name,
unknown names being ignored and missing attributes keeping the zero value.
Each raw attribute value, read up to its closing quote, is then processed as
the strict decoder processes quoted text: the five predefined character
entities and the decimal and hexadecimal numeric entities are resolved (a
numeric value above the maximum rune is an error, a surrogate value becomes
the replacement character as Go's rune-to-string conversion makes it), while
an unescaped left angle bracket or an ampersand that does not form a valid
entity fails the decode. -/

def RegFilesHeadXML : String :=
  "<?xml version=\x221.0\x22 encoding=\x22utf-16\x22?>\n<ArrayOfApplicationFile xmlns:xsi=\x22http://www.w3.org/2001/XMLSchema-instance\x22 xmlns:xsd=\x22http://www.w3.org/2001/XMLSchema\x22>\n"

def RegFilesFileNameXML : String := "  <ApplicationFile FileName=\x22"

def RegFilesRelativePathXML : String := "\x22 RelativePath=\x22"

def RegFilesDataFileXML : String := "\x22 DataFile=\x22"

def RegFilesEntryPointXML : String := "\x22 EntryPoint=\x22"

def RegFilesIsMainConfigFileXML : String := "\x22 IsMainConfigFile=\x22"

def RegFilesOptionalXML : String := "\x22 Optional=\x22"

def RegFilesGroupNameXML : String := "\x22 GroupName=\x22"

def RegFilesTailXML : String := "\x22 />\n"

def RegFilesEndingXML : String := "</ArrayOfApplicationFile>"

/-- One ApplicationFile line of the registry value.  The concatenation order
is taken verbatim from the source: the DataFile label is followed by the
EntryPoint field, the EntryPoint label by the IsMainConfigFile field, and the
IsMainConfigFile label by the IsMainConfigFile field again; the DataFile
field itself is never emitted. -/
def ConstructLineForCustomFilesRegistryKey (cf : CustomisationFile) : String :=
  RegFilesFileNameXML ++ cf.FileName ++ RegFilesRelativePathXML ++ cf.RelativePath ++
    RegFilesDataFileXML ++ cf.EntryPoint ++ RegFilesEntryPointXML ++ cf.IsMainConfigFile ++
    RegFilesIsMainConfigFileXML ++ cf.IsMainConfigFile ++ RegFilesOptionalXML ++ cf.Optional ++
    RegFilesGroupNameXML ++ cf.GroupName ++ RegFilesTailXML

/-- The whole CustomFiles registry value: header, one line per file, closing
tag. -/
def ConstructCustomFilesRegistryKey (customFilesList : List CustomisationFile) : String :=
  (customFilesList.foldl
    (fun result file => result ++ ConstructLineForCustomFilesRegistryKey file)
    RegFilesHeadXML) ++ RegFilesEndingXML

/-- The double-quote character delimiting XML attribute values. -/
def quoteChar : Char := '\x22'

/-- Does a character extend an XML attribute name?  A name stops at the
equals sign, at a space and at the tag-closing bracket. -/
def attrNameChar (c : Char) : Bool :=
  !(c == '=') && !(c == ' ') && !(c == '>')

/-- Drop an expected prefix from a character list, or fail. -/
def dropPrefixChars : List Char → List Char → Option (List Char)
  | [], s => some s
  | _ :: _, [] => none
  | c :: p, d :: s => if c = d then dropPrefixChars p s else none

/-- Parse one attribute of the form space, name, equals sign, double-quoted
value; return the pair and the rest of the input. -/
def parseOneAttr (s : List Char) : Option ((String × String) × List Char) :=
  match s with
  | ' ' :: rest1 =>
    match rest1.takeWhile attrNameChar, rest1.dropWhile attrNameChar with
    | [], _ => none
    | nm, '=' :: q :: rest3 =>
      if q = quoteChar then
        match rest3.dropWhile (fun c => !(c == quoteChar)) with
        | _ :: rest4 =>
          some ((⟨nm⟩, ⟨rest3.takeWhile (fun c => !(c == quoteChar))⟩), rest4)
        | [] => none
      else none
    | _, _ => none
  | _ => none

/-- Parse the attribute list of one element up to the closing marker; the
fuel bounds the number of attributes. -/
def parseAttrs : Nat → List Char → Option (List (String × String) × List Char)
  | 0, s =>
    match dropPrefixChars [' ', '/', '>', '\n'] s with
    | some rest => some ([], rest)
    | none => none
  | fuel + 1, s =>
    match dropPrefixChars [' ', '/', '>', '\n'] s with
    | some rest => some ([], rest)
    | none =>
      match parseOneAttr s with
      | none => none
      | some (a, rest) => (parseAttrs fuel rest).map fun r => (a :: r.1, r.2)

/-- Parse the sequence of ApplicationFile elements up to the closing tag,
giving each element's attribute list; the fuel bounds the number of
elements. -/
def parseElements : Nat → List Char → Option (List (List (String × String)))
  | 0, s =>
    match dropPrefixChars RegFilesEndingXML.data s with
    | some _ => some []
    | none => none
  | fuel + 1, s =>
    match dropPrefixChars RegFilesEndingXML.data s with
    | some _ => some []
    | none =>
      match dropPrefixChars "  <ApplicationFile".data s with
      | none => none
      | some rest =>
        match parseAttrs rest.length rest with
        | none => none
        | some (attrs, rest2) => (parseElements fuel rest2).map fun es => attrs :: es

/-- The zero value the Go decoder starts from: every attribute field empty,
and the fields without an XML attribute tag (SourcePath, LastWriteTime,
Version) at their zero values. -/
def emptyCustomisationFile : CustomisationFile :=
  { FileName := "", RelativePath := "", DataFile := "", EntryPoint := "",
    IsMainConfigFile := "", Optional := "", GroupName := "", SourcePath := "",
    LastWriteTime := 0, Version := ⟨0, 0, 0, 0, 0⟩ }

/-- Bind one parsed attribute to the struct field tagged with the same
attribute name, ignoring unknown names, as encoding/xml does. -/
def bindAttr (cf : CustomisationFile) (a : String × String) : CustomisationFile :=
  if a.1 = "FileName" then { cf with FileName := a.2 }
  else if a.1 = "RelativePath" then { cf with RelativePath := a.2 }
  else if a.1 = "DataFile" then { cf with DataFile := a.2 }
  else if a.1 = "EntryPoint" then { cf with EntryPoint := a.2 }
  else if a.1 = "IsMainConfigFile" then { cf with IsMainConfigFile := a.2 }
  else if a.1 = "Optional" then { cf with Optional := a.2 }
  else if a.1 = "GroupName" then { cf with GroupName := a.2 }
  else cf

def bindAttrs (attrs : List (String × String)) : CustomisationFile :=
  attrs.foldl bindAttr emptyCustomisationFile

/-- Value of a decimal digit character, if it is one. -/
def decDigit (c : Char) : Option Nat :=
  if '0' ≤ c ∧ c ≤ '9' then some (c.toNat - '0'.toNat) else none

/-- Value of a hexadecimal digit character, if it is one. -/
def hexDigit (c : Char) : Option Nat :=
  if '0' ≤ c ∧ c ≤ '9' then some (c.toNat - '0'.toNat)
  else if 'a' ≤ c ∧ c ≤ 'f' then some (c.toNat - 'a'.toNat + 10)
  else if 'A' ≤ c ∧ c ≤ 'F' then some (c.toNat - 'A'.toNat + 10)
  else none

/-- Read a nonempty digit string in the given base, failing on any
non-digit, as strconv.ParseUint does inside the decoder. -/
def digitsToNat (digit : Char → Option Nat) (base : Nat) (cs : List Char) :
    Option Nat :=
  if cs.isEmpty then none
  else cs.foldl (fun acc c =>
    match acc, digit c with
    | some n, some d => some (n * base + d)
    | _, _ => none) (some 0)

/-- The character Go's string(rune(n)) conversion yields for a code point no
larger than the maximum rune: the code point itself, or the replacement
character for a surrogate value. -/
def charOfRune (n : Nat) : Char :=
  if n < 0xD800 ∨ (0xDFFF < n ∧ n < 0x110000) then Char.ofNat n else '\uFFFD'

/-- Resolve the text between an ampersand and its semicolon: one of the five
predefined entities, or a decimal or hexadecimal character reference whose
value is at most the maximum rune; anything else is the strict decoder's
invalid-entity error. -/
def entityValue : List Char → Option Char
  | '#' :: 'x' :: hexDigits =>
    (digitsToNat hexDigit 16 hexDigits).bind fun n =>
      if n ≤ 0x10FFFF then some (charOfRune n) else none
  | '#' :: decDigits =>
    (digitsToNat decDigit 10 decDigits).bind fun n =>
      if n ≤ 0x10FFFF then some (charOfRune n) else none
  | name =>
    if name = "lt".data then some '<'
    else if name = "gt".data then some '>'
    else if name = "amp".data then some '&'
    else if name = "apos".data then some '\x27'
    else if name = "quot".data then some quoteChar
    else none

/-- Process a raw attribute value as the strict decoder does: resolve
character entities, fail on an unescaped left angle bracket and on an
ampersand without a valid entity; the fuel bounds the number of characters
consumed. -/
def unescapeChars : Nat → List Char → Option (List Char)
  | _, [] => some []
  | 0, _ :: _ => none
  | fuel + 1, c :: rest =>
    if c = '<' then none
    else if c = '&' then
      match rest.dropWhile (fun d => !(d == ';')) with
      | ';' :: rest2 =>
        match entityValue (rest.takeWhile (fun d => !(d == ';'))) with
        | none => none
        | some ch => (unescapeChars fuel rest2).map fun t => ch :: t
      | _ => none
    else (unescapeChars fuel rest).map fun t => c :: t

/-- Process every attribute value of one element, failing if any value is
malformed. -/
def unescapeAttrs : List (String × String) → Option (List (String × String))
  | [] => some []
  | a :: t =>
    match unescapeChars a.2.data.length a.2.data with
    | none => none
    | some v => (unescapeAttrs t).map fun r => (a.1, (⟨v⟩ : String)) :: r

/-- Process every element's attribute values, failing if any is malformed. -/
def unescapeElements :
    List (List (String × String)) → Option (List (List (String × String)))
  | [] => some []
  | attrs :: t =>
    match unescapeAttrs attrs with
    | none => none
    | some b => (unescapeElements t).map fun r => b :: r

/-- Decode a CustomFiles registry value into the file list, or fail as the
Go XML decoder fails on malformed input: after the document structure is
read, every attribute value goes through the strict entity processing. -/
def ParseOldCustomFilesValue (oldCustomFiles : String) :
    Except String (List CustomisationFile) :=
  match dropPrefixChars RegFilesHeadXML.data oldCustomFiles.data with
  | none => Except.error "XML syntax error"
  | some rest =>
    match parseElements rest.length rest with
    | none => Except.error "XML syntax error"
    | some attrLists =>
      match unescapeElements attrLists with
      | none => Except.error "XML syntax error"
      | some decoded => Except.ok (decoded.map bindAttrs)

/-- The per-entry effect of one encode/decode cycle: name and path keep
their labels, the DataFile attribute carries the EntryPoint value, the
EntryPoint attribute carries the IsMainConfigFile value, the IsMainConfigFile
and Optional and GroupName attributes carry their own values, and the
untagged fields revert to their zero values. -/
def decodeOffset (cf : CustomisationFile) : CustomisationFile :=
  { FileName := cf.FileName, RelativePath := cf.RelativePath,
    DataFile := cf.EntryPoint, EntryPoint := cf.IsMainConfigFile,
    IsMainConfigFile := cf.IsMainConfigFile, Optional := cf.Optional,
    GroupName := cf.GroupName, SourcePath := "", LastWriteTime := 0,
    Version := ⟨0, 0, 0, 0, 0⟩ }

/-- The attribute list of one encoded ApplicationFile element, labels paired
with the values the encoder actually places under them. -/
def lineAttrs (cf : CustomisationFile) : List (String × String) :=
  [("FileName", cf.FileName), ("RelativePath", cf.RelativePath),
    ("DataFile", cf.EntryPoint), ("EntryPoint", cf.IsMainConfigFile),
    ("IsMainConfigFile", cf.IsMainConfigFile), ("Optional", cf.Optional),
    ("GroupName", cf.GroupName)]

/-- One attribute as a character chunk: space, label, equals sign, quoted
value, then the rest. -/
def attrChunk (label v : String) (rest : List Char) : List Char :=
  ' ' :: label.data ++ '=' :: quoteChar :: v.data ++ quoteChar :: rest

/-- The character tail of one encoded line after the element-opening text:
its seven attributes followed by the closing marker and the rest of the
input. -/
def lineTailChunk (cf : CustomisationFile) (rest : List Char) : List Char :=
  attrChunk "FileName" cf.FileName
    (attrChunk "RelativePath" cf.RelativePath
      (attrChunk "DataFile" cf.EntryPoint
        (attrChunk "EntryPoint" cf.IsMainConfigFile
          (attrChunk "IsMainConfigFile" cf.IsMainConfigFile
            (attrChunk "Optional" cf.Optional
              (attrChunk "GroupName" cf.GroupName
                (' ' :: '/' :: '>' :: '\n' :: rest)))))))

/-- The concatenated encoded lines of a file list. -/
def bodyChars : List CustomisationFile → List Char
  | [] => []
  | cf :: t => (ConstructLineForCustomFilesRegistryKey cf).data ++ bodyChars t

/-- A file whose emitted attribute values are free of the double-quote
character, so that the encoder's unescaped output stays well formed. -/
def goodFile (cf : CustomisationFile) : Prop :=
  quoteChar ∉ cf.FileName.data ∧ quoteChar ∉ cf.RelativePath.data ∧
    quoteChar ∉ cf.EntryPoint.data ∧ quoteChar ∉ cf.IsMainConfigFile.data ∧
    quoteChar ∉ cf.Optional.data ∧ quoteChar ∉ cf.GroupName.data

instance (cf : CustomisationFile) : Decidable (goodFile cf) := by
  unfold goodFile
  infer_instance

/-- A value the strict decoder reads back unchanged: free of the
double-quote character (which would end the value early), of the ampersand
(which the unescaping encoder would leave as an invalid entity) and of the
left angle bracket (which the strict decoder rejects inside a quoted
value). -/
def plainField (s : String) : Prop :=
  quoteChar ∉ s.data ∧ '&' ∉ s.data ∧ '<' ∉ s.data

instance (s : String) : Decidable (plainField s) := by
  unfold plainField
  infer_instance

/-- A file whose emitted attribute values survive the encode/decode round
trip: every emitted field is a plain value. -/
def plainFile (cf : CustomisationFile) : Prop :=
  plainField cf.FileName ∧ plainField cf.RelativePath ∧
    plainField cf.EntryPoint ∧ plainField cf.IsMainConfigFile ∧
    plainField cf.Optional ∧ plainField cf.GroupName

instance (cf : CustomisationFile) : Decidable (plainFile cf) := by
  unfold plainFile
  infer_instance

/-- The attribute list a decoder reads back from one encoded ApplicationFile
line. -/
def applicationFileAttrs (cf : CustomisationFile) :
    Option (List (String × String) × List Char) :=
  match dropPrefixChars "  <ApplicationFile".data
      (ConstructLineForCustomFilesRegistryKey cf).data with
  | some rest => parseAttrs rest.length rest
  | none => none

/-- One name/data pair of a registry key (registry.go). -/
structure RegistryValue where
  Name : String
  Data : String
deriving DecidableEq, Repr

/-- The two error outcomes of AddManuallyAddedOptions: the sentinel
ErrCustomFilesNotFound, or the XML decode error it forwards. -/
inductive MergeError where
  | customFilesNotFound : MergeError
  | decodeError : String → MergeError
deriving DecidableEq, Repr

/-- Index and data of the first registry entry named CustomFiles, as the
scan-and-break loop of AddManuallyAddedOptions finds it. -/
def findCustomFilesIdx : List RegistryValue → Option (Nat × String)
  | [] => none
  | v :: rest =>
    if v.Name = "CustomFiles" then some (0, v.Data)
    else (findCustomFilesIdx rest).map fun p => (p.1 + 1, p.2)

/-- Copy the five option fields of a prior entry onto a fresh entry. -/
def overwriteOptions (newFile oldFile : CustomisationFile) : CustomisationFile :=
  { newFile with
      DataFile := oldFile.DataFile, EntryPoint := oldFile.EntryPoint,
      IsMainConfigFile := oldFile.IsMainConfigFile, Optional := oldFile.Optional,
      GroupName := oldFile.GroupName }

/-- One inner-loop step of the compare loop: overwrite when the identities
match, keep the entry otherwise. -/
def applyOldFile (newFile oldFile : CustomisationFile) : CustomisationFile :=
  if oldFile.FileName = newFile.FileName ∧ oldFile.RelativePath = newFile.RelativePath then
    overwriteOptions newFile oldFile
  else newFile

/-- The whole inner loop over the prior list for one fresh entry. -/
def applyOldOptions (oldFilesList : List CustomisationFile)
    (newFile : CustomisationFile) : CustomisationFile :=
  oldFilesList.foldl applyOldFile newFile

/-- AddManuallyAddedOptions of registry.go: find the first CustomFiles
entry, decode it, merge its options into the fresh list, and store the
re-encoded list back into that entry; on a missing entry or a decode error
return the error with both inputs untouched. -/
def AddManuallyAddedOptions (rvs : List RegistryValue)
    (finalFilesList : List CustomisationFile) :
    Option MergeError × List RegistryValue × List CustomisationFile :=
  match findCustomFilesIdx rvs with
  | none => (some MergeError.customFilesNotFound, rvs, finalFilesList)
  | some (cfKeyId, data) =>
    match ParseOldCustomFilesValue data with
    | Except.error msg => (some (MergeError.decodeError msg), rvs, finalFilesList)
    | Except.ok oldFilesList =>
      let newList := finalFilesList.map (applyOldOptions oldFilesList)
      (none,
        rvs.set cfKeyId
          { rvs.getD cfKeyId { Name := "", Data := "" } with
              Data := ConstructCustomFilesRegistryKey newList },
        newList)

/-- Go errors as GetCustomisationFoldersList distinguishes them: an error
propagated from an io call, or the string error the function constructs
itself. -/
inductive GoError where
  | ioErr : String → GoError
  | strError : String → GoError
deriving DecidableEq, Repr

/-- The entry loop of GetCustomisationFoldersList: stat every entry of the
directory listing and keep the names whose mode is a directory, stopping at
the first stat error. -/
def collectFolders (stat : String → Except String Bool)
    (joinPath : String → String → String) (directory : String) :
    List String → Except String (List String)
  | [] => Except.ok []
  | entryName :: rest =>
    match stat (joinPath directory entryName) with
    | Except.error e => Except.error e
    | Except.ok isDir =>
      (collectFolders stat joinPath directory rest).map
        fun foldersList => if isDir then entryName :: foldersList else foldersList

/-- GetCustomisationFoldersList of customisations.go over oracles for the
directory read, the stat call and the path join: io errors are returned as
such, and an empty folder list becomes the constructed string error. -/
def GetCustomisationFoldersList (readDirRes : Except String (List String))
    (stat : String → Except String Bool)
    (joinPath : String → String → String) (directory : String) :
    Except GoError (List String) :=
  match readDirRes with
  | Except.error e => Except.error (GoError.ioErr e)
  | Except.ok entries =>
    match collectFolders stat joinPath directory entries with
    | Except.error e => Except.error (GoError.ioErr e)
    | Except.ok foldersList =>
      if foldersList.length = 0 then
        Except.error (GoError.strError
          ("Directory \x22" ++ directory ++ "\x22 does not contain subdirectories"))
      else Except.ok foldersList

/-- GetFileVersion of customisations.go over a probe oracle: none stands for
any of the three w32 failures, which all yield the zero version and
ErrVersionNotExist; a successful probe yields the packed 64-bit version and
its four 16-bit components. -/
def GetFileVersion (probe : Option Nat) : FileVersion × Option String :=
  match probe with
  | none => (⟨0, 0, 0, 0, 0⟩, some "version not exsist")
  | some raw =>
    let version := raw % 2 ^ 64
    (⟨version,
      (version &&& 0xFFFF000000000000) >>> 48,
      (version &&& 0x0000FFFF00000000) >>> 32,
      (version &&& 0x00000000FFFF0000) >>> 16,
      (version &&& 0x000000000000FFFF) >>> 0⟩, none)

/-- ExtractCustomFileInfo of customisations.go over oracles for the relative
path computation and the version probe.  The error value of GetFileVersion
is dropped by the source: the function returns the candidate with a nil
error whatever the probe did. -/
def ExtractCustomFileInfo (relResult : Except String String)
    (dirOf : String → String) (probe : Option Nat) (name : String)
    (modTime : Nat) (fullPath : String) : Except String CustomisationFile :=
  match relResult with
  | Except.error e => Except.error e
  | Except.ok rel0 =>
    let rel1 := dirOf rel0
    let relativePath := if rel1 = "." then "" else rel1
    Except.ok
      { FileName := name, RelativePath := relativePath, DataFile := "false",
        EntryPoint := "false", IsMainConfigFile := "false", Optional := "false",
        GroupName := "", SourcePath := fullPath, LastWriteTime := modTime,
        Version := (GetFileVersion probe).1 }

/-- Concrete sample entry whose EntryPoint and IsMainConfigFile values
differ, exposing the field-offset quirk of the encoder. -/
def sampleQuirk : CustomisationFile :=
  { FileName := "q.dll", RelativePath := "", DataFile := "false",
    EntryPoint := "true", IsMainConfigFile := "false", Optional := "false",
    GroupName := "", SourcePath := "", LastWriteTime := 0,
    Version := ⟨0, 0, 0, 0, 0⟩ }

/-- Concrete entry whose GroupName holds a bare ampersand; the encoder
emits it unescaped, so the strict decoder rejects the resulting value. -/
def sampleAmp : CustomisationFile :=
  { FileName := "n.dll", RelativePath := "", DataFile := "false",
    EntryPoint := "false", IsMainConfigFile := "false", Optional := "false",
    GroupName := "a&b", SourcePath := "", LastWriteTime := 0,
    Version := ⟨0, 0, 0, 0, 0⟩ }

/-- Concrete prior manifest entry carrying group g1 for the a.dll identity. -/
def sampleOldG1 : CustomisationFile :=
  { FileName := "a.dll", RelativePath := "", DataFile := "false",
    EntryPoint := "false", IsMainConfigFile := "false", Optional := "false",
    GroupName := "g1", SourcePath := "", LastWriteTime := 0,
    Version := ⟨0, 0, 0, 0, 0⟩ }

/-- Concrete prior manifest entry carrying group g2 for the same a.dll
identity, appearing after the g1 entry. -/
def sampleOldG2 : CustomisationFile :=
  { sampleOldG1 with GroupName := "g2" }

/-- Concrete stat oracle marking exactly root/sub as a directory. -/
def sampleStat : String → Except String Bool :=
  fun p => Except.ok (p == "root/sub")

/-- Concrete path-join oracle inserting a slash. -/
def sampleJoin : String → String → String :=
  fun a b => a ++ "/" ++ b

theorem FindNewFile_eq_second_iff (a b : CustomisationFile) :
    FindNewFile a b = "second" ↔ keyLt a b := by
  unfold FindNewFile keyLt
  split_ifs with h1 h2 h3 h4
  · exact iff_of_false (by decide) (by omega)
  · exact iff_of_true rfl (by omega)
  · exact iff_of_false (by decide) (by omega)
  · exact iff_of_true rfl (by omega)
  · exact iff_of_false (by decide) (by omega)

theorem FindNewFile_self (a : CustomisationFile) : FindNewFile a a = "equal" := by
  unfold FindNewFile
  split_ifs <;> first | rfl | omega

/-! ### List and indexing helper lemmas -/

theorem getD_set_self (l : List String) (i : Nat) (a : String) (h : i < l.length) :
    (l.set i a).getD i "" = a := by
  show ((l.set i a).get? i).getD "" = a
  rw [List.get?_set_eq_of_lt a h]
  rfl

theorem getD_set_ne (l : List String) (i k : Nat) (a : String) (h : k ≠ i) :
    (l.set i a).getD k "" = l.getD k "" := by
  show ((l.set i a).get? k).getD "" = (l.get? k).getD ""
  rw [List.get?_set_ne a l (Ne.symm h)]

theorem withIndexFrom_length (i : Nat) (l : List α) :
    (withIndexFrom i l).length = l.length := by
  induction l generalizing i with
  | nil => rfl
  | cons a t ih => simp only [withIndexFrom, List.length_cons, ih]

theorem withIndexFrom_append (i : Nat) (l₁ l₂ : List α) :
    withIndexFrom i (l₁ ++ l₂) =
      withIndexFrom i l₁ ++ withIndexFrom (i + l₁.length) l₂ := by
  induction l₁ generalizing i with
  | nil => simp [withIndexFrom]
  | cons a t ih =>
    show (i, a) :: withIndexFrom (i + 1) (t ++ l₂) =
      (i, a) :: (withIndexFrom (i + 1) t ++ withIndexFrom (i + (a :: t).length) l₂)
    rw [ih (i + 1)]
    simp only [List.length_cons]
    have h : i + 1 + t.length = i + (t.length + 1) := by omega
    rw [h]

theorem mem_withIndexFrom (p : Nat × α) (i : Nat) (l : List α)
    (h : p ∈ withIndexFrom i l) :
    i ≤ p.1 ∧ p.1 - i < l.length ∧ l.get? (p.1 - i) = some p.2 := by
  induction l generalizing i with
  | nil => simp [withIndexFrom] at h
  | cons a t ih =>
    simp only [withIndexFrom, List.mem_cons] at h
    rcases h with h | h
    · subst h
      simp
    · obtain ⟨h1, h2, h3⟩ := ih (i + 1) h
      refine ⟨by omega, by simp; omega, ?_⟩
      have hd : p.1 - i = (p.1 - (i + 1)) + 1 := by omega
      rw [hd]
      simpa using h3

theorem mem_withIndexFromZero (p : Nat × α) (l : List α)
    (h : p ∈ withIndexFrom 0 l) : l.get? p.1 = some p.2 := by
  have := mem_withIndexFrom p 0 l h
  simpa using this.2.2

theorem get?_mem_withIndexFrom (l : List α) (i j : Nat) (v : α)
    (h : l.get? j = some v) : (i + j, v) ∈ withIndexFrom i l := by
  induction l generalizing i j with
  | nil => simp at h
  | cons a t ih =>
    cases j with
    | zero =>
      simp only [List.get?] at h
      cases h
      simp [withIndexFrom]
    | succ j =>
      simp only [List.get?] at h
      have := ih (i + 1) j h
      simp only [withIndexFrom, List.mem_cons]
      right
      have hd : i + (j + 1) = (i + 1) + j := by omega
      rw [hd]
      exact this

theorem withIndexFrom_pairwise (i : Nat) (l : List α) :
    List.Pairwise (fun p q => p.1 < q.1) (withIndexFrom i l) := by
  induction l generalizing i with
  | nil => exact List.Pairwise.nil
  | cons a t ih =>
    refine List.Pairwise.cons ?_ (ih (i + 1))
    intro q hq
    have := mem_withIndexFrom q (i + 1) t hq
    simp only
    omega

/-! ### Step-evaluation lemmas for the comparison loops -/

theorem innerStep_eval_skip (st : List String) (cw : CustomisationFile) (ci j : Nat)
    (u : CustomisationFile) (h : st.getD j "" ≠ "") :
    innerStep (st, cw, ci) (j, u) = (st, cw, ci) := by
  simp only [innerStep]
  rw [if_pos h]

theorem innerStep_eval_nomatch (st : List String) (cw : CustomisationFile) (ci j : Nat)
    (u : CustomisationFile) (h0 : st.getD j "" = "")
    (h : ¬(cw.FileName = u.FileName ∧ cw.RelativePath = u.RelativePath)) :
    innerStep (st, cw, ci) (j, u) = (st, cw, ci) := by
  simp only [innerStep]
  rw [if_neg (not_not_intro h0), if_pos h]

theorem innerStep_eval_second (st : List String) (cw : CustomisationFile) (ci j : Nat)
    (u : CustomisationFile) (h0 : st.getD j "" = "")
    (h : cw.FileName = u.FileName ∧ cw.RelativePath = u.RelativePath)
    (hs : FindNewFile cw u = "second") :
    innerStep (st, cw, ci) (j, u) = (st.set ci "[SKIP     ]", u, j) := by
  simp only [innerStep]
  rw [if_neg (not_not_intro h0), if_neg (not_not_intro h), if_pos hs]

theorem innerStep_eval_keep (st : List String) (cw : CustomisationFile) (ci j : Nat)
    (u : CustomisationFile) (h0 : st.getD j "" = "")
    (h : cw.FileName = u.FileName ∧ cw.RelativePath = u.RelativePath)
    (hs : FindNewFile cw u ≠ "second") :
    innerStep (st, cw, ci) (j, u) = (st.set j "[SKIP     ]", cw, ci) := by
  simp only [innerStep]
  rw [if_neg (not_not_intro h0), if_neg (not_not_intro h), if_neg hs]

theorem innerLoop_cons_skip (ps : List (Nat × CustomisationFile)) (st : List String)
    (cw : CustomisationFile) (ci j : Nat) (u : CustomisationFile)
    (h : st.getD j "" ≠ "") :
    innerLoop ((j, u) :: ps) st cw ci = innerLoop ps st cw ci := by
  show ps.foldl innerStep (innerStep (st, cw, ci) (j, u)) = ps.foldl innerStep (st, cw, ci)
  rw [innerStep_eval_skip st cw ci j u h]

theorem innerLoop_cons_nomatch (ps : List (Nat × CustomisationFile)) (st : List String)
    (cw : CustomisationFile) (ci j : Nat) (u : CustomisationFile)
    (h0 : st.getD j "" = "")
    (h : ¬(cw.FileName = u.FileName ∧ cw.RelativePath = u.RelativePath)) :
    innerLoop ((j, u) :: ps) st cw ci = innerLoop ps st cw ci := by
  show ps.foldl innerStep (innerStep (st, cw, ci) (j, u)) = ps.foldl innerStep (st, cw, ci)
  rw [innerStep_eval_nomatch st cw ci j u h0 h]

theorem innerLoop_cons_second (ps : List (Nat × CustomisationFile)) (st : List String)
    (cw : CustomisationFile) (ci j : Nat) (u : CustomisationFile)
    (h0 : st.getD j "" = "")
    (h : cw.FileName = u.FileName ∧ cw.RelativePath = u.RelativePath)
    (hs : FindNewFile cw u = "second") :
    innerLoop ((j, u) :: ps) st cw ci = innerLoop ps (st.set ci "[SKIP     ]") u j := by
  show ps.foldl innerStep (innerStep (st, cw, ci) (j, u)) =
    ps.foldl innerStep (st.set ci "[SKIP     ]", u, j)
  rw [innerStep_eval_second st cw ci j u h0 h hs]

theorem innerLoop_cons_keep (ps : List (Nat × CustomisationFile)) (st : List String)
    (cw : CustomisationFile) (ci j : Nat) (u : CustomisationFile)
    (h0 : st.getD j "" = "")
    (h : cw.FileName = u.FileName ∧ cw.RelativePath = u.RelativePath)
    (hs : FindNewFile cw u ≠ "second") :
    innerLoop ((j, u) :: ps) st cw ci = innerLoop ps (st.set j "[SKIP     ]") cw ci := by
  show ps.foldl innerStep (innerStep (st, cw, ci) (j, u)) =
    ps.foldl innerStep (st.set j "[SKIP     ]", cw, ci)
  rw [innerStep_eval_keep st cw ci j u h0 h hs]

theorem winnerFold_cons (init : CustomisationFile × Nat) (p : Nat × CustomisationFile)
    (t : List (Nat × CustomisationFile)) :
    winnerFold init (p :: t) = winnerFold (winnerStep init p) t := rfl

theorem winnerStep_second (a : CustomisationFile) (i j : Nat) (u : CustomisationFile)
    (h : FindNewFile a u = "second") : winnerStep (a, i) (j, u) = (u, j) := by
  unfold winnerStep
  rw [if_pos h]

theorem winnerStep_keep (a : CustomisationFile) (i j : Nat) (u : CustomisationFile)
    (h : FindNewFile a u ≠ "second") : winnerStep (a, i) (j, u) = (a, i) := by
  unfold winnerStep
  rw [if_neg h]

theorem winnerFold_idx (init : CustomisationFile × Nat)
    (ps : List (Nat × CustomisationFile)) :
    (winnerFold init ps).2 = init.2 ∨ (winnerFold init ps).2 ∈ ps.map Prod.fst := by
  induction ps generalizing init with
  | nil => exact Or.inl rfl
  | cons p t ih =>
    rw [winnerFold_cons]
    by_cases hs : FindNewFile init.1 p.2 = "second"
    · have hstep : winnerStep init p = (p.2, p.1) := by
        unfold winnerStep
        rw [if_pos hs]
      rw [hstep]
      rcases ih (p.2, p.1) with h | h
      · right
        rw [h]
        exact List.mem_cons_self _ _
      · right
        exact List.mem_cons_of_mem _ h
    · have hstep : winnerStep init p = init := by
        unfold winnerStep
        rw [if_neg hs]
      rw [hstep]
      rcases ih init with h | h
      · exact Or.inl h
      · right
        exact List.mem_cons_of_mem _ h

theorem groupEntries_cons_pos (fn rp : String) (j : Nat) (u : CustomisationFile)
    (ps : List (Nat × CustomisationFile)) (h : matchesId fn rp u) :
    groupEntries fn rp ((j, u) :: ps) = (j, u) :: groupEntries fn rp ps := by
  unfold groupEntries
  rw [List.filter_cons_of_pos]
  simpa using h

theorem groupEntries_cons_neg (fn rp : String) (j : Nat) (u : CustomisationFile)
    (ps : List (Nat × CustomisationFile)) (h : ¬ matchesId fn rp u) :
    groupEntries fn rp ((j, u) :: ps) = groupEntries fn rp ps := by
  unfold groupEntries
  rw [List.filter_cons_of_neg]
  simpa using h

theorem groupEntries_idx_ge (fn rp : String) (k : Nat) (rest : List CustomisationFile)
    (m : Nat) (hm : m ∈ (groupEntries fn rp (withIndexFrom k rest)).map Prod.fst) :
    k ≤ m := by
  simp only [List.mem_map] at hm
  obtain ⟨p, hp, rfl⟩ := hm
  exact (mem_withIndexFrom p k rest (List.mem_of_mem_filter hp)).1

theorem winnerFold_wif_idx (fn rp : String) (k : Nat) (rest : List CustomisationFile)
    (cw : CustomisationFile) (ci : Nat) :
    (winnerFold (cw, ci) (groupEntries fn rp (withIndexFrom k rest))).2 = ci ∨
      k ≤ (winnerFold (cw, ci) (groupEntries fn rp (withIndexFrom k rest))).2 := by
  rcases winnerFold_idx (cw, ci) (groupEntries fn rp (withIndexFrom k rest)) with h | h
  · exact Or.inl h
  · exact Or.inr (groupEntries_idx_ge fn rp k rest _ h)

theorem matchesId_cond_iff (cw v : CustomisationFile) (fn rp : String)
    (hm : matchesId fn rp cw) :
    (cw.FileName = v.FileName ∧ cw.RelativePath = v.RelativePath) ↔
      matchesId fn rp v := by
  obtain ⟨h1, h2⟩ := hm
  unfold matchesId
  constructor
  · rintro ⟨a, b⟩
    exact ⟨a.symm.trans h1, b.symm.trans h2⟩
  · rintro ⟨a, b⟩
    exact ⟨h1.trans a.symm, h2.trans b.symm⟩

/-- Full characterisation of the inner comparison loop on the portion of the
indexed list after the current index: the returned current pair is the winner
fold over the identity group, every other visited group index is marked SKIP,
and all other statuses are untouched. -/
theorem innerLoop_spec (fn rp : String) (rest : List CustomisationFile) :
    ∀ (k : Nat) (st : List String) (cw : CustomisationFile) (ci : Nat),
      ci < k → ci < st.length → k + rest.length ≤ st.length →
      matchesId fn rp cw →
      (∀ j v, rest.get? j = some v → matchesId fn rp v → st.getD (k + j) "" = "") →
      ∃ st',
        innerLoop (withIndexFrom k rest) st cw ci =
          (st', winnerFold (cw, ci) (groupEntries fn rp (withIndexFrom k rest))) ∧
        st'.length = st.length ∧
        ∀ m, st'.getD m "" =
          if (m = ci ∨ m ∈ (groupEntries fn rp (withIndexFrom k rest)).map Prod.fst) ∧
              m ≠ (winnerFold (cw, ci) (groupEntries fn rp (withIndexFrom k rest))).2
          then "[SKIP     ]" else st.getD m "" := by
  induction rest with
  | nil =>
    intro k st cw ci _ _ _ _ _
    refine ⟨st, rfl, rfl, fun m => ?_⟩
    rw [if_neg]
    rintro ⟨hor, hne⟩
    rcases hor with rfl | hmem
    · exact hne rfl
    · simp [groupEntries, withIndexFrom] at hmem
  | cons v rest' ih =>
    intro k st cw ci h1 h2 h3 h4 h5
    have hwif : withIndexFrom k (v :: rest') = (k, v) :: withIndexFrom (k + 1) rest' := rfl
    have hlen' : k + 1 + rest'.length ≤ st.length := by
      simp only [List.length_cons] at h3
      omega
    have hkst : k < st.length := by
      simp only [List.length_cons] at h3
      omega
    have h5' : ∀ j u, rest'.get? j = some u → matchesId fn rp u →
        st.getD (k + 1 + j) "" = "" := by
      intro j u hj hu
      have hx := h5 (j + 1) u (by simpa using hj) hu
      have harith : k + (j + 1) = k + 1 + j := by omega
      rwa [harith] at hx
    by_cases hst0 : st.getD k "" = ""
    · by_cases hmv : matchesId fn rp v
      · have hcond : cw.FileName = v.FileName ∧ cw.RelativePath = v.RelativePath :=
          (matchesId_cond_iff cw v fn rp h4).mpr hmv
        have hg : groupEntries fn rp (withIndexFrom k (v :: rest')) =
            (k, v) :: groupEntries fn rp (withIndexFrom (k + 1) rest') := by
          rw [hwif]
          exact groupEntries_cons_pos fn rp k v _ hmv
        have hmap : ((k, v) :: groupEntries fn rp (withIndexFrom (k + 1) rest')).map
            Prod.fst = k :: (groupEntries fn rp (withIndexFrom (k + 1) rest')).map
            Prod.fst := rfl
        by_cases hsec : FindNewFile cw v = "second"
        · -- the challenger wins: switch the current pair and skip the old one
          have hloop : innerLoop (withIndexFrom k (v :: rest')) st cw ci =
              innerLoop (withIndexFrom (k + 1) rest') (st.set ci "[SKIP     ]") v k := by
            rw [hwif]
            exact innerLoop_cons_second _ st cw ci k v hst0 hcond hsec
          have hwin : winnerFold (cw, ci) (groupEntries fn rp (withIndexFrom k (v :: rest'))) =
              winnerFold (v, k) (groupEntries fn rp (withIndexFrom (k + 1) rest')) := by
            rw [hg, winnerFold_cons, winnerStep_second cw ci k v hsec]
          obtain ⟨st'', heq, hlen'', hpt⟩ := ih (k + 1) (st.set ci "[SKIP     ]") v k
            (Nat.lt_succ_self k)
            (by rw [List.length_set]; exact hkst)
            (by rw [List.length_set]; exact hlen')
            hmv
            (fun j u hj hu => by
              rw [getD_set_ne st ci (k + 1 + j) _ (by omega)]
              exact h5' j u hj hu)
          refine ⟨st'', by rw [hloop, heq, hwin], by rw [hlen'', List.length_set], ?_⟩
          intro m
          rw [hwin, hg, hmap]
          have hW := winnerFold_wif_idx fn rp (k + 1) rest' v k
          by_cases hmci : m = ci
          · have hne : m ≠ (winnerFold (v, k)
                (groupEntries fn rp (withIndexFrom (k + 1) rest'))).2 := by
              rcases hW with hx | hx <;> omega
            rw [if_pos ⟨Or.inl hmci, hne⟩]
            have hx := hpt m
            rw [if_neg ?side1] at hx
            case side1 =>
              rintro ⟨hor, _⟩
              rcases hor with hz | hz
              · omega
              · have := groupEntries_idx_ge fn rp (k + 1) rest' m hz
                omega
            rw [hx, hmci, getD_set_self st ci _ h2]
          · have hx := hpt m
            by_cases hc : (m = k ∨ m ∈ (groupEntries fn rp
                  (withIndexFrom (k + 1) rest')).map Prod.fst) ∧
                m ≠ (winnerFold (v, k) (groupEntries fn rp (withIndexFrom (k + 1) rest'))).2
            · rw [if_pos hc] at hx
              have hor2 : m = ci ∨ m ∈ k :: (groupEntries fn rp
                  (withIndexFrom (k + 1) rest')).map Prod.fst := by
                rcases hc.1 with hz | hz
                · subst hz
                  exact Or.inr (List.mem_cons_self _ _)
                · exact Or.inr (List.mem_cons_of_mem _ hz)
              rw [hx, if_pos ⟨hor2, hc.2⟩]
            · rw [if_neg hc] at hx
              rw [hx, getD_set_ne st ci m _ hmci, if_neg]
              rintro ⟨hor, hne⟩
              rcases hor with hz | hz
              · exact hmci hz
              · rcases List.mem_cons.mp hz with hz | hz
                · exact hc ⟨Or.inl hz, hne⟩
                · exact hc ⟨Or.inr hz, hne⟩
        · -- the current pair survives: the challenger is skipped
          have hloop : innerLoop (withIndexFrom k (v :: rest')) st cw ci =
              innerLoop (withIndexFrom (k + 1) rest') (st.set k "[SKIP     ]") cw ci := by
            rw [hwif]
            exact innerLoop_cons_keep _ st cw ci k v hst0 hcond hsec
          have hwin : winnerFold (cw, ci) (groupEntries fn rp (withIndexFrom k (v :: rest'))) =
              winnerFold (cw, ci) (groupEntries fn rp (withIndexFrom (k + 1) rest')) := by
            rw [hg, winnerFold_cons, winnerStep_keep cw ci k v hsec]
          obtain ⟨st'', heq, hlen'', hpt⟩ := ih (k + 1) (st.set k "[SKIP     ]") cw ci
            (by omega)
            (by rw [List.length_set]; exact h2)
            (by rw [List.length_set]; exact hlen')
            h4
            (fun j u hj hu => by
              rw [getD_set_ne st k (k + 1 + j) _ (by omega)]
              exact h5' j u hj hu)
          refine ⟨st'', by rw [hloop, heq, hwin], by rw [hlen'', List.length_set], ?_⟩
          intro m
          rw [hwin, hg, hmap]
          have hW := winnerFold_wif_idx fn rp (k + 1) rest' cw ci
          by_cases hmk : m = k
          · have hne : m ≠ (winnerFold (cw, ci)
                (groupEntries fn rp (withIndexFrom (k + 1) rest'))).2 := by
              rcases hW with hx | hx <;> omega
            rw [if_pos ⟨Or.inr (by rw [hmk]; exact List.mem_cons_self _ _), hne⟩]
            have hx := hpt m
            rw [if_neg ?side2] at hx
            case side2 =>
              rintro ⟨hor, _⟩
              rcases hor with hz | hz
              · omega
              · have := groupEntries_idx_ge fn rp (k + 1) rest' m hz
                omega
            rw [hx, hmk, getD_set_self st k _ hkst]
          · have hx := hpt m
            by_cases hc : (m = ci ∨ m ∈ (groupEntries fn rp
                  (withIndexFrom (k + 1) rest')).map Prod.fst) ∧
                m ≠ (winnerFold (cw, ci) (groupEntries fn rp (withIndexFrom (k + 1) rest'))).2
            · rw [if_pos hc] at hx
              have hor2 : m = ci ∨ m ∈ k :: (groupEntries fn rp
                  (withIndexFrom (k + 1) rest')).map Prod.fst := by
                rcases hc.1 with hz | hz
                · exact Or.inl hz
                · exact Or.inr (List.mem_cons_of_mem _ hz)
              rw [hx, if_pos ⟨hor2, hc.2⟩]
            · rw [if_neg hc] at hx
              rw [hx, getD_set_ne st k m _ hmk, if_neg]
              rintro ⟨hor, hne⟩
              rcases hor with hz | hz
              · exact hc ⟨Or.inl hz, hne⟩
              · rcases List.mem_cons.mp hz with hz | hz
                · exact hmk hz
                · exact hc ⟨Or.inr hz, hne⟩
      · -- the entry has a different identity: it is ignored
        have hcond : ¬(cw.FileName = v.FileName ∧ cw.RelativePath = v.RelativePath) :=
          fun hx => hmv ((matchesId_cond_iff cw v fn rp h4).mp hx)
        have hloop : innerLoop (withIndexFrom k (v :: rest')) st cw ci =
            innerLoop (withIndexFrom (k + 1) rest') st cw ci := by
          rw [hwif]
          exact innerLoop_cons_nomatch _ st cw ci k v hst0 hcond
        have hg : groupEntries fn rp (withIndexFrom k (v :: rest')) =
            groupEntries fn rp (withIndexFrom (k + 1) rest') := by
          rw [hwif]
          exact groupEntries_cons_neg fn rp k v _ hmv
        obtain ⟨st'', heq, hlen'', hpt⟩ := ih (k + 1) st cw ci (by omega) h2 hlen' h4 h5'
        exact ⟨st'', by rw [hloop, heq, hg], hlen'', fun m => by rw [hg]; exact hpt m⟩
    · -- the entry already carries a status: it is ignored and cannot match
      have hmv : ¬ matchesId fn rp v := by
        intro hm'
        exact hst0 (by simpa using h5 0 v rfl hm')
      have hloop : innerLoop (withIndexFrom k (v :: rest')) st cw ci =
          innerLoop (withIndexFrom (k + 1) rest') st cw ci := by
        rw [hwif]
        exact innerLoop_cons_skip _ st cw ci k v hst0
      have hg : groupEntries fn rp (withIndexFrom k (v :: rest')) =
          groupEntries fn rp (withIndexFrom (k + 1) rest') := by
        rw [hwif]
        exact groupEntries_cons_neg fn rp k v _ hmv
      obtain ⟨st'', heq, hlen'', hpt⟩ := ih (k + 1) st cw ci (by omega) h2 hlen' h4 h5'
      exact ⟨st'', by rw [hloop, heq, hg], hlen'', fun m => by rw [hg]; exact hpt m⟩

/-! ### Properties of identity groups and of the outer loop -/

theorem get?_lt_length (l : List α) (k : Nat) (u : α) (h : l.get? k = some u) :
    k < l.length := by
  by_contra hc
  rw [List.get?_eq_none.mpr (Nat.le_of_not_lt hc)] at h
  cases h

theorem mem_groupOf (l : List CustomisationFile) (v : CustomisationFile)
    (p : Nat × CustomisationFile) :
    p ∈ groupOf l v ↔
      p ∈ withIndexFrom 0 l ∧ matchesId v.FileName v.RelativePath p.2 := by
  unfold groupOf groupEntries
  rw [List.mem_filter]
  simp only [decide_eq_true_eq]

theorem mem_groupOf_self (l : List CustomisationFile) (k : Nat)
    (u : CustomisationFile) (hk : l.get? k = some u) : (k, u) ∈ groupOf l u := by
  rw [mem_groupOf]
  refine ⟨?_, rfl, rfl⟩
  have := get?_mem_withIndexFrom l 0 k u hk
  simpa using this

theorem groupOf_entry (l : List CustomisationFile) (v : CustomisationFile)
    (p : Nat × CustomisationFile) (hp : p ∈ groupOf l v) :
    l.get? p.1 = some p.2 := by
  exact mem_withIndexFromZero p l ((mem_groupOf l v p).mp hp).1

theorem groupOf_pairwise (l : List CustomisationFile) (v : CustomisationFile) :
    List.Pairwise (fun p q => p.1 < q.1) (groupOf l v) :=
  List.Pairwise.filter _ (withIndexFrom_pairwise 0 l)

theorem firstIdxOf_le_of_mem (l : List CustomisationFile) (v : CustomisationFile)
    (p : Nat × CustomisationFile) (hp : p ∈ groupOf l v) :
    firstIdxOf l v ≤ p.1 := by
  unfold firstIdxOf
  rcases hgo : groupOf l v with _ | ⟨q, t⟩
  · rw [hgo] at hp
    cases hp
  · rw [hgo] at hp
    rcases List.mem_cons.mp hp with h | h
    · rw [h]
    · have hpw := groupOf_pairwise l v
      rw [hgo] at hpw
      exact Nat.le_of_lt ((List.pairwise_cons.mp hpw).1 p h)

theorem groupOf_congr (l : List CustomisationFile) (u v : CustomisationFile)
    (hfn : u.FileName = v.FileName) (hrp : u.RelativePath = v.RelativePath) :
    groupOf l u = groupOf l v := by
  unfold groupOf
  rw [hfn, hrp]

theorem firstIdxOf_congr (l : List CustomisationFile) (u v : CustomisationFile)
    (hfn : u.FileName = v.FileName) (hrp : u.RelativePath = v.RelativePath) :
    firstIdxOf l u = firstIdxOf l v := by
  unfold firstIdxOf
  rw [groupOf_congr l u v hfn hrp]

theorem winnerOf_congr (l : List CustomisationFile) (u v : CustomisationFile)
    (hfn : u.FileName = v.FileName) (hrp : u.RelativePath = v.RelativePath)
    (hne : groupOf l v ≠ []) : winnerOf l u = winnerOf l v := by
  unfold winnerOf
  rw [groupOf_congr l u v hfn hrp]
  rcases hgo : groupOf l v with _ | ⟨q, t⟩
  · exact absurd hgo hne
  · rfl

theorem CheckRedundancy_congr (matchRe : String → String → Bool)
    (u v : CustomisationFile) (rules : List String)
    (hfn : u.FileName = v.FileName) :
    CheckRedundancy matchRe u rules = CheckRedundancy matchRe v rules := by
  unfold CheckRedundancy
  rw [hfn]

theorem groupEntries_idx_lt (fn rp : String) (k : Nat) (rest : List CustomisationFile)
    (m : Nat) (hm : m ∈ (groupEntries fn rp (withIndexFrom k rest)).map Prod.fst) :
    m < k + rest.length := by
  simp only [List.mem_map] at hm
  obtain ⟨p, hp, rfl⟩ := hm
  have h := mem_withIndexFrom p k rest (List.mem_of_mem_filter hp)
  omega

theorem innerLoop_all_marked (ps : List (Nat × CustomisationFile)) :
    ∀ (st : List String) (cw : CustomisationFile) (ci : Nat),
      (∀ p ∈ ps, st.getD p.1 "" ≠ "") → innerLoop ps st cw ci = (st, cw, ci) := by
  induction ps with
  | nil => intro st cw ci _; rfl
  | cons p t ihp =>
    intro st cw ci h
    obtain ⟨j, u⟩ := p
    rw [innerLoop_cons_skip t st cw ci j u (h (j, u) (List.mem_cons_self _ _))]
    exact ihp st cw ci fun q hq => h q (List.mem_cons_of_mem _ hq)

theorem innerLoop_append (ps qs : List (Nat × CustomisationFile)) (st : List String)
    (cw : CustomisationFile) (ci : Nat) :
    innerLoop (ps ++ qs) st cw ci =
      innerLoop qs (innerLoop ps st cw ci).1 (innerLoop ps st cw ci).2.1
        (innerLoop ps st cw ci).2.2 := by
  unfold innerLoop
  rw [List.foldl_append]

theorem outerStep_eval_skip (matchRe : String → String → Bool)
    (l : List CustomisationFile) (rules : List String)
    (res : List CustomisationFile) (st : List String) (i : Nat)
    (v : CustomisationFile) (h : st.getD i "" ≠ "") :
    outerStep matchRe l rules (res, st) (i, v) = (res, st) := by
  simp only [outerStep]
  rw [if_pos h]

theorem outerStep_eval_red (matchRe : String → String → Bool)
    (l : List CustomisationFile) (rules : List String)
    (res : List CustomisationFile) (st : List String) (i : Nat)
    (v : CustomisationFile) (h0 : st.getD i "" = "")
    (h : CheckRedundancy matchRe v rules = true) :
    outerStep matchRe l rules (res, st) (i, v) =
      (res, st.set i "[REDUNDANT]") := by
  simp only [outerStep]
  rw [if_neg (not_not_intro h0), if_pos h]

theorem outerStep_eval_new (matchRe : String → String → Bool)
    (l : List CustomisationFile) (rules : List String)
    (res : List CustomisationFile) (st : List String) (i : Nat)
    (v : CustomisationFile) (h0 : st.getD i "" = "")
    (h : CheckRedundancy matchRe v rules = false) :
    outerStep matchRe l rules (res, st) (i, v) =
      (res ++ [(innerLoop (withIndexFrom 0 l) st v i).2.1],
        (innerLoop (withIndexFrom 0 l) st v i).1.set
          (innerLoop (withIndexFrom 0 l) st v i).2.2 "[COPIED   ]") := by
  simp only [outerStep]
  rw [if_neg (not_not_intro h0), if_neg (by rw [h]; exact Bool.false_ne_true)]

theorem head?_drop_eq_get? (l : List α) (n : Nat) : (l.drop n).head? = l.get? n := by
  induction l generalizing n with
  | nil => cases n <;> rfl
  | cons a t ih =>
    cases n with
    | zero => rfl
    | succ n => exact ih n

theorem firstIdxOf_entry (l : List CustomisationFile) (u : CustomisationFile)
    (k : Nat) (hk : l.get? k = some u) :
    ∃ w, l.get? (firstIdxOf l u) = some w ∧ w.FileName = u.FileName ∧
      w.RelativePath = u.RelativePath := by
  have hmem := mem_groupOf_self l k u hk
  rcases hgo : groupOf l u with _ | ⟨p, t⟩
  · rw [hgo] at hmem
    cases hmem
  · have hfi : firstIdxOf l u = p.1 := by
      unfold firstIdxOf
      rw [hgo]
    have hent : l.get? p.1 = some p.2 :=
      groupOf_entry l u p (by rw [hgo]; exact List.mem_cons_self _ _)
    have hmat := (mem_groupOf l u p).mp (by rw [hgo]; exact List.mem_cons_self _ _)
    exact ⟨p.2, by rw [hfi]; exact hent, hmat.2.1, hmat.2.2⟩

theorem ident_of_firstIdxOf_eq (l : List CustomisationFile) (u v : CustomisationFile)
    (i₀ k : Nat) (hv : l.get? i₀ = some v) (hk : l.get? k = some u)
    (hf : firstIdxOf l u = i₀) :
    u.FileName = v.FileName ∧ u.RelativePath = v.RelativePath := by
  obtain ⟨w, hw, hwfn, hwrp⟩ := firstIdxOf_entry l u k hk
  rw [hf, hv] at hw
  cases hw
  exact ⟨hwfn.symm, hwrp.symm⟩

/-- The status the outer loop has assigned to index `k` after having processed
the first `i₀` outer iterations (proof-side invariant formula). -/
def invStatus (matchRe : String → String → Bool) (rules : List String)
    (l : List CustomisationFile) (i₀ k : Nat) (u : CustomisationFile) : String :=
  if CheckRedundancy matchRe u rules then
    (if k < i₀ then "[REDUNDANT]" else "")
  else
    (if firstIdxOf l u < i₀ then
      (if (winnerOf l u).2 = k then "[COPIED   ]" else "[SKIP     ]")
    else "")

theorem invStatus_step (matchRe : String → String → Bool) (rules : List String)
    (l : List CustomisationFile) (i₀ k : Nat) (u : CustomisationFile)
    (hki : k ≠ i₀)
    (hfid : firstIdxOf l u ≠ i₀ ∨ CheckRedundancy matchRe u rules = true) :
    invStatus matchRe rules l i₀ k u = invStatus matchRe rules l (i₀ + 1) k u := by
  unfold invStatus
  by_cases hr : CheckRedundancy matchRe u rules = true
  · rw [if_pos hr, if_pos hr]
    have hiff : k < i₀ ↔ k < i₀ + 1 := by omega
    simp only [hiff]
  · rw [if_neg hr, if_neg hr]
    have hfi : firstIdxOf l u ≠ i₀ := by
      rcases hfid with h | h
      · exact h
      · exact absurd h hr
    have hiff : firstIdxOf l u < i₀ ↔ firstIdxOf l u < i₀ + 1 := by omega
    simp only [hiff]

theorem invStatus_final (matchRe : String → String → Bool) (rules : List String)
    (l : List CustomisationFile) (i₀ k : Nat) (u : CustomisationFile)
    (hk : l.get? k = some u) (hki : k < i₀) :
    invStatus matchRe rules l i₀ k u = specStatus matchRe rules l (k, u) := by
  have hle : firstIdxOf l u ≤ k :=
    firstIdxOf_le_of_mem l u (k, u) (mem_groupOf_self l k u hk)
  unfold invStatus specStatus
  by_cases hr : CheckRedundancy matchRe u rules = true
  · rw [if_pos hr, if_pos hki, if_pos hr]
  · rw [if_neg hr, if_pos (by omega), if_neg hr]

theorem count_set_ne (c a : String) : ∀ (l : List String) (k : Nat),
    k < l.length → l.getD k "" ≠ c → a ≠ c →
    (l.set k a).count c = l.count c := by
  intro l
  induction l with
  | nil => intro k hk _ _; simp at hk
  | cons b t ih =>
    intro k hk hold hnew
    cases k with
    | zero =>
      show (a :: t).count c = (b :: t).count c
      rw [List.count_cons, List.count_cons]
      have h1 : (a == c) = false := by simpa using hnew
      have h2 : (b == c) = false := by simpa using hold
      rw [h1, h2]
    | succ k =>
      show (b :: t.set k a).count c = (b :: t).count c
      rw [List.count_cons, List.count_cons,
        ih k (by simpa using hk) hold hnew]

theorem count_set_incr (c : String) : ∀ (l : List String) (k : Nat),
    k < l.length → l.getD k "" ≠ c →
    (l.set k c).count c = l.count c + 1 := by
  intro l
  induction l with
  | nil => intro k hk _; simp at hk
  | cons b t ih =>
    intro k hk hold
    cases k with
    | zero =>
      show (c :: t).count c = (b :: t).count c + 1
      rw [List.count_cons, List.count_cons]
      have h1 : (c == c) = true := by simp
      have h2 : (b == c) = false := by simpa using hold
      rw [h1, h2]
      simp
    | succ k =>
      show (b :: t.set k c).count c = (b :: t).count c + 1
      rw [List.count_cons, List.count_cons,
        ih k (by simpa using hk) hold]
      omega

theorem count_congr_ne (c : String) : ∀ (l₁ l₂ : List String),
    l₁.length = l₂.length →
    (∀ k, k < l₁.length →
      l₁.getD k "" = l₂.getD k "" ∨ (l₁.getD k "" ≠ c ∧ l₂.getD k "" ≠ c)) →
    l₁.count c = l₂.count c := by
  intro l₁
  induction l₁ with
  | nil =>
    intro l₂ hlen _
    cases l₂ with
    | nil => rfl
    | cons b t => simp at hlen
  | cons a t ih =>
    intro l₂ hlen h
    cases l₂ with
    | nil => simp at hlen
    | cons b t₂ =>
      rw [List.count_cons, List.count_cons,
        ih t₂ (by simpa using hlen) (fun k hk => h (k + 1) (by simpa using hk))]
      rcases h 0 (by simp) with h0 | ⟨h1, h2⟩
      · have : a = b := h0
        rw [this]
      · have ha : (a == c) = false := by simpa using h1
        have hb : (b == c) = false := by simpa using h2
        rw [ha, hb]

/-- Full characterisation of the outer loop of ValidateCollectedFiles: starting
from a state that reflects the first `i₀` processed iterations, the remaining
iterations produce the closed-form result list and status array. -/
theorem outerLoop_spec (matchRe : String → String → Bool) (rules : List String)
    (l : List CustomisationFile) (rest : List CustomisationFile) :
    ∀ (i₀ : Nat) (st : List String) (res : List CustomisationFile),
      l.drop i₀ = rest →
      st.length = l.length →
      (∀ k u, l.get? k = some u → st.getD k "" = invStatus matchRe rules l i₀ k u) →
      res = ((withIndexFrom 0 (l.take i₀)).filter fun p =>
          !CheckRedundancy matchRe p.2 rules && decide (firstIdxOf l p.2 = p.1)).map
          (fun p => (winnerOf l p.2).1) →
      st.count "[COPIED   ]" = res.length →
      ∃ stf,
        (withIndexFrom i₀ rest).foldl (outerStep matchRe l rules) (res, st) =
          (specResult matchRe rules l, stf) ∧
        stf.length = l.length ∧
        (∀ k u, l.get? k = some u → stf.getD k "" = specStatus matchRe rules l (k, u)) ∧
        stf.count "[COPIED   ]" = (specResult matchRe rules l).length := by
  induction rest with
  | nil =>
    intro i₀ st res hrest hlen hinv hres hcount
    have hlin : l.length ≤ i₀ := List.drop_eq_nil_iff.mp hrest
    have hrs : res = specResult matchRe rules l := by
      rw [hres]
      unfold specResult
      rw [List.take_all_of_le hlin]
    refine ⟨st, by rw [hrs]; rfl, hlen, ?_, by rw [← hrs]; exact hcount⟩
    · intro k u hk
      rw [hinv k u hk, invStatus_final matchRe rules l i₀ k u hk]
      have := get?_lt_length l k u hk
      omega
  | cons v rest₂ ih =>
    intro i₀ st res hrest hlen hinv hres hcount
    have hv : l.get? i₀ = some v := by
      rw [← head?_drop_eq_get?, hrest]
      rfl
    have hi₀lt : i₀ < l.length := get?_lt_length l i₀ v hv
    have hdrop2 : l.drop (i₀ + 1) = rest₂ := by
      have h1 : (l.drop i₀).drop 1 = l.drop (i₀ + 1) := List.drop_drop 1 i₀ l
      rw [← h1, hrest]
      rfl
    have hlength : l.length = i₀ + 1 + rest₂.length := by
      have h1 : (l.drop i₀).length = l.length - i₀ := List.length_drop i₀ l
      rw [hrest] at h1
      simp only [List.length_cons] at h1
      omega
    have htklen : (l.take i₀).length = i₀ := by
      rw [List.length_take]
      omega
    have hwifstep : withIndexFrom i₀ (v :: rest₂) =
        (i₀, v) :: withIndexFrom (i₀ + 1) rest₂ := rfl
    have htake1 : l.take (i₀ + 1) = l.take i₀ ++ [v] := by
      rw [List.take_succ]
      have hg : l[i₀]? = some v := by
        rw [← List.get?_eq_getElem?]
        exact hv
      rw [hg]
      rfl
    have hwiftk : withIndexFrom 0 (l.take (i₀ + 1)) =
        withIndexFrom 0 (l.take i₀) ++ [(i₀, v)] := by
      rw [htake1, withIndexFrom_append, htklen, Nat.zero_add]
      rfl
    have hprefmem : ∀ p, p ∈ withIndexFrom 0 (l.take i₀) →
        l.get? p.1 = some p.2 ∧ p.1 < i₀ := by
      intro p hp
      obtain ⟨-, hplt, hpg⟩ := mem_withIndexFrom p 0 (l.take i₀) hp
      rw [htklen] at hplt
      simp only [Nat.sub_zero] at hplt hpg
      rw [List.get?_take hplt] at hpg
      exact ⟨hpg, hplt⟩
    -- the entry value at any index of the identity group of an entry of l
    rw [hwifstep]
    show ∃ stf, (withIndexFrom (i₀ + 1) rest₂).foldl (outerStep matchRe l rules)
      (outerStep matchRe l rules (res, st) (i₀, v)) = _ ∧ _
    by_cases hred : CheckRedundancy matchRe v rules = true
    · -- redundant entry at its own iteration
      have hst0 : st.getD i₀ "" = "" := by
        rw [hinv i₀ v hv]
        unfold invStatus
        rw [if_pos hred, if_neg (lt_irrefl i₀)]
      rw [outerStep_eval_red matchRe l rules res st i₀ v hst0 hred]
      apply ih (i₀ + 1) (st.set i₀ "[REDUNDANT]") res hdrop2
        (by rw [List.length_set]; exact hlen)
      · intro k u hk
        by_cases hki : k = i₀
        · have hu : u = v := by
            rw [hki, hv] at hk
            cases hk
            rfl
          rw [hki, getD_set_self st i₀ _ (by omega)]
          unfold invStatus
          rw [hu, if_pos hred, if_pos (Nat.lt_succ_self i₀)]
        · rw [getD_set_ne st i₀ k _ hki, hinv k u hk]
          apply invStatus_step matchRe rules l i₀ k u hki
          by_cases hf : firstIdxOf l u = i₀
          · right
            obtain ⟨hfn, -⟩ := ident_of_firstIdxOf_eq l u v i₀ k hv hk hf
            rw [CheckRedundancy_congr matchRe u v rules hfn]
            exact hred
          · exact Or.inl hf
      · rw [hres, hwiftk, List.filter_append, List.map_append]
        have hsing : ([(i₀, v)].filter fun p =>
            !CheckRedundancy matchRe p.2 rules && decide (firstIdxOf l p.2 = p.1)) = [] := by
          rw [List.filter_cons_of_neg, List.filter_nil]
          simp [hred]
        rw [hsing]
        simp
      · rw [count_set_ne "[COPIED   ]" "[REDUNDANT]" st i₀ (by omega)
          (by rw [hst0]; decide) (by decide)]
        exact hcount
    · -- not redundant
      have hredf : CheckRedundancy matchRe v rules = false :=
        Bool.not_eq_true _ ▸ (Bool.eq_false_iff.mpr hred)
      have hfile : firstIdxOf l v ≤ i₀ :=
        firstIdxOf_le_of_mem l v (i₀, v) (mem_groupOf_self l i₀ v hv)
      by_cases hfi : firstIdxOf l v < i₀
      · -- identity group already resolved at an earlier iteration
        have hne : st.getD i₀ "" ≠ "" := by
          rw [hinv i₀ v hv]
          unfold invStatus
          rw [if_neg hred, if_pos hfi]
          split_ifs <;> decide
        rw [outerStep_eval_skip matchRe l rules res st i₀ v hne]
        apply ih (i₀ + 1) st res hdrop2 hlen
        · intro k u hk
          rw [hinv k u hk]
          by_cases hki : k = i₀
          · unfold invStatus
            have hu : u = v := by
              rw [hki, hv] at hk
              cases hk
              rfl
            have hfi1 : firstIdxOf l v < i₀ + 1 := by omega
            rw [hu, if_neg hred, if_neg hred, if_pos hfi, if_pos hfi1]
          · apply invStatus_step matchRe rules l i₀ k u hki
            left
            intro hf
            obtain ⟨hfn, hrp⟩ := ident_of_firstIdxOf_eq l u v i₀ k hv hk hf
            rw [firstIdxOf_congr l u v hfn hrp] at hf
            omega
        · rw [hres, hwiftk, List.filter_append, List.map_append]
          have hsing : ([(i₀, v)].filter fun p =>
              !CheckRedundancy matchRe p.2 rules && decide (firstIdxOf l p.2 = p.1)) = [] := by
            rw [List.filter_cons_of_neg, List.filter_nil]
            simp only [Bool.and_eq_true, Bool.not_eq_true', decide_eq_true_eq]
            rintro ⟨-, hfeq⟩
            omega
          rw [hsing]
          simp
        · exact hcount
      · -- first occurrence of a fresh, non-redundant identity group
        have hfeq : firstIdxOf l v = i₀ := by omega
        have hst0 : st.getD i₀ "" = "" := by
          rw [hinv i₀ v hv]
          unfold invStatus
          rw [if_neg hred, if_neg hfi]
        have hl : l.take i₀ ++ v :: rest₂ = l := by
          rw [← hrest, List.take_append_drop]
        have hsplit : withIndexFrom 0 l =
            withIndexFrom 0 (l.take i₀) ++ ((i₀, v) :: withIndexFrom (i₀ + 1) rest₂) := by
          conv_lhs => rw [← hl]
          rw [withIndexFrom_append, htklen, Nat.zero_add]
          rfl
        have hpref : ∀ p ∈ withIndexFrom 0 (l.take i₀), st.getD p.1 "" ≠ "" := by
          intro p hp
          obtain ⟨hpg, hplt⟩ := hprefmem p hp
          rw [hinv p.1 p.2 hpg]
          unfold invStatus
          by_cases hr : CheckRedundancy matchRe p.2 rules = true
          · rw [if_pos hr, if_pos hplt]
            decide
          · have hple : firstIdxOf l p.2 ≤ p.1 :=
              firstIdxOf_le_of_mem l p.2 (p.1, p.2)
                (mem_groupOf_self l p.1 p.2 (by exact hpg))
            rw [if_neg hr, if_pos (by omega)]
            split_ifs <;> decide
        have hprerun : innerLoop (withIndexFrom 0 l) st v i₀ =
            innerLoop ((i₀, v) :: withIndexFrom (i₀ + 1) rest₂) st v i₀ := by
          rw [hsplit, innerLoop_append,
            innerLoop_all_marked (withIndexFrom 0 (l.take i₀)) st v i₀ hpref]
        have hheadrun : innerLoop ((i₀, v) :: withIndexFrom (i₀ + 1) rest₂) st v i₀ =
            innerLoop (withIndexFrom (i₀ + 1) rest₂) (st.set i₀ "[SKIP     ]") v i₀ :=
          innerLoop_cons_keep _ st v i₀ i₀ v hst0 ⟨rfl, rfl⟩
            (by rw [FindNewFile_self]; decide)
        obtain ⟨st₂, heq₂, hlen₂, hpt₂⟩ := innerLoop_spec v.FileName v.RelativePath
          rest₂ (i₀ + 1) (st.set i₀ "[SKIP     ]") v i₀
          (Nat.lt_succ_self i₀)
          (by rw [List.length_set, hlen]; omega)
          (by rw [List.length_set, hlen]; omega)
          ⟨rfl, rfl⟩
          (by
            intro j u hj hu
            have hget : l.get? (i₀ + 1 + j) = some u := by
              rw [← hdrop2] at hj
              rw [List.get?_drop] at hj
              exact hj
            rw [getD_set_ne st i₀ (i₀ + 1 + j) _ (by omega), hinv _ u hget]
            unfold invStatus
            obtain ⟨hufn, hurp⟩ := hu
            rw [if_neg (by rw [CheckRedundancy_congr matchRe u v rules hufn]; exact hred),
              if_neg (by rw [firstIdxOf_congr l u v hufn hurp]; omega)])
        have hfull : innerLoop (withIndexFrom 0 l) st v i₀ =
            (st₂, winnerFold (v, i₀)
              (groupEntries v.FileName v.RelativePath (withIndexFrom (i₀ + 1) rest₂))) := by
          rw [hprerun, hheadrun, heq₂]
        have hgd : groupOf l v = (i₀, v) ::
            groupEntries v.FileName v.RelativePath (withIndexFrom (i₀ + 1) rest₂) := by
          unfold groupOf groupEntries
          rw [hsplit, List.filter_append, List.filter_cons_of_pos (by simp [matchesId]),
            List.filter_eq_nil_iff.mpr ?hpnil]
          case hpnil =>
            intro p hp
            simp only [decide_eq_true_eq]
            intro hmat
            have hmem : p ∈ groupOf l v := by
              rw [mem_groupOf]
              refine ⟨?_, hmat⟩
              rw [hsplit]
              exact List.mem_append_left _ hp
            have := firstIdxOf_le_of_mem l v p hmem
            have := (hprefmem p hp).2
            omega
          rfl
        have hwv : winnerOf l v = winnerFold (v, i₀)
            (groupEntries v.FileName v.RelativePath (withIndexFrom (i₀ + 1) rest₂)) := by
          unfold winnerOf
          rw [hgd]
        have hstlen : st₂.length = l.length := by
          rw [hlen₂, List.length_set]
          exact hlen
        have hw2cases := winnerFold_wif_idx v.FileName v.RelativePath (i₀ + 1) rest₂ v i₀
        have hw2lt : (winnerFold (v, i₀) (groupEntries v.FileName v.RelativePath
            (withIndexFrom (i₀ + 1) rest₂))).2 < l.length := by
          rcases winnerFold_idx (v, i₀) (groupEntries v.FileName v.RelativePath
            (withIndexFrom (i₀ + 1) rest₂)) with h | h
          · simp only at h
            omega
          · have := groupEntries_idx_lt v.FileName v.RelativePath (i₀ + 1) rest₂ _ h
            omega
        have hmemid : ∀ q ∈ (groupEntries v.FileName v.RelativePath
            (withIndexFrom (i₀ + 1) rest₂)).map Prod.fst,
            ∃ w, l.get? q = some w ∧ w.FileName = v.FileName ∧
              w.RelativePath = v.RelativePath := by
          intro q hq
          simp only [List.mem_map] at hq
          obtain ⟨p, hp, rfl⟩ := hq
          have hmm := List.mem_filter.mp hp
          obtain ⟨-, hplt, hpg⟩ := mem_withIndexFrom p (i₀ + 1) rest₂ hmm.1
          have hmat : matchesId v.FileName v.RelativePath p.2 := by
            have := hmm.2
            simpa using this
          have hget : l.get? p.1 = some p.2 := by
            have hge := (mem_withIndexFrom p (i₀ + 1) rest₂ hmm.1).1
            rw [← hdrop2] at hpg
            rw [List.get?_drop] at hpg
            have harith : i₀ + 1 + (p.1 - (i₀ + 1)) = p.1 := by omega
            rwa [harith] at hpg
          exact ⟨p.2, hget, hmat.1, hmat.2⟩
        have hgempty : ∀ q, q ∈ (groupEntries v.FileName v.RelativePath
            (withIndexFrom (i₀ + 1) rest₂)).map Prod.fst → st.getD q "" = "" := by
          intro q hq
          obtain ⟨w, hwget, hwfn, hwrp⟩ := hmemid q hq
          rw [hinv q w hwget]
          unfold invStatus
          rw [if_neg (by rw [CheckRedundancy_congr matchRe w v rules hwfn]; exact hred),
            if_neg (by rw [firstIdxOf_congr l w v hwfn hwrp]; omega)]
        have hw2old : st₂.getD (winnerFold (v, i₀) (groupEntries v.FileName
            v.RelativePath (withIndexFrom (i₀ + 1) rest₂))).2 "" ≠ "[COPIED   ]" := by
          rw [hpt₂ ((winnerFold (v, i₀) (groupEntries v.FileName v.RelativePath
            (withIndexFrom (i₀ + 1) rest₂))).2), if_neg (fun hx => hx.2 rfl)]
          rcases winnerFold_idx (v, i₀) (groupEntries v.FileName v.RelativePath
              (withIndexFrom (i₀ + 1) rest₂)) with hz | hz
          · have hz' : (winnerFold (v, i₀) (groupEntries v.FileName v.RelativePath
                (withIndexFrom (i₀ + 1) rest₂))).2 = i₀ := hz
            rw [hz', getD_set_self st i₀ _ (by omega)]
            decide
          · have hki : (winnerFold (v, i₀) (groupEntries v.FileName v.RelativePath
                (withIndexFrom (i₀ + 1) rest₂))).2 ≠ i₀ := by
              have := groupEntries_idx_ge v.FileName v.RelativePath (i₀ + 1) rest₂ _ hz
              omega
            rw [getD_set_ne st i₀ _ _ hki, hgempty _ hz]
            decide
        have hcnt2 : st₂.count "[COPIED   ]" = st.count "[COPIED   ]" := by
          have hset_count : (st.set i₀ "[SKIP     ]").count "[COPIED   ]" =
              st.count "[COPIED   ]" :=
            count_set_ne "[COPIED   ]" "[SKIP     ]" st i₀ (by omega)
              (by rw [hst0]; decide) (by decide)
          rw [← hset_count]
          apply count_congr_ne
          · rw [hlen₂]
          · intro k hk
            rw [hpt₂ k]
            by_cases hc : (k = i₀ ∨ k ∈ (groupEntries v.FileName v.RelativePath
                  (withIndexFrom (i₀ + 1) rest₂)).map Prod.fst) ∧
                k ≠ (winnerFold (v, i₀) (groupEntries v.FileName v.RelativePath
                  (withIndexFrom (i₀ + 1) rest₂))).2
            · rw [if_pos hc]
              right
              refine ⟨by decide, ?_⟩
              rcases hc.1 with hz | hz
              · rw [hz, getD_set_self st i₀ _ (by omega)]
                decide
              · have hki : k ≠ i₀ := by
                  have := groupEntries_idx_ge v.FileName v.RelativePath (i₀ + 1) rest₂ k hz
                  omega
                rw [getD_set_ne st i₀ k _ hki, hgempty k hz]
                decide
            · rw [if_neg hc]
              left
              rfl
        rw [outerStep_eval_new matchRe l rules res st i₀ v hst0 hredf, hfull]
        apply ih (i₀ + 1)
          (st₂.set (winnerFold (v, i₀) (groupEntries v.FileName v.RelativePath
            (withIndexFrom (i₀ + 1) rest₂))).2 "[COPIED   ]")
          (res ++ [(winnerFold (v, i₀) (groupEntries v.FileName v.RelativePath
            (withIndexFrom (i₀ + 1) rest₂))).1])
          hdrop2
          (by rw [List.length_set, hlen₂, List.length_set]; exact hlen)
        · -- pointwise invariant after resolving the fresh group
          intro k u hk
          by_cases hku : u.FileName = v.FileName ∧ u.RelativePath = v.RelativePath
          · -- identity of the freshly resolved group
            have hkmem : k = i₀ ∨ k ∈ (groupEntries v.FileName v.RelativePath
                (withIndexFrom (i₀ + 1) rest₂)).map Prod.fst := by
              have hmem : (k, u) ∈ groupOf l v := by
                rw [mem_groupOf]
                exact ⟨by simpa using get?_mem_withIndexFrom l 0 k u hk, hku.1, hku.2⟩
              rw [hgd] at hmem
              rcases List.mem_cons.mp hmem with h | h
              · left
                exact congrArg Prod.fst h
              · right
                exact List.mem_map.mpr ⟨(k, u), h, rfl⟩
            have hwu : winnerOf l u = winnerFold (v, i₀)
                (groupEntries v.FileName v.RelativePath (withIndexFrom (i₀ + 1) rest₂)) := by
              rw [winnerOf_congr l u v hku.1 hku.2 (by rw [hgd]; exact List.cons_ne_nil _ _),
                hwv]
            unfold invStatus
            rw [if_neg (by rw [CheckRedundancy_congr matchRe u v rules hku.1]; exact hred),
              if_pos (by rw [firstIdxOf_congr l u v hku.1 hku.2]; omega), hwu]
            by_cases hkw : k = (winnerFold (v, i₀) (groupEntries v.FileName v.RelativePath
                (withIndexFrom (i₀ + 1) rest₂))).2
            · rw [if_pos hkw.symm, ← hkw, getD_set_self st₂ k _ (by rw [hstlen]; omega)]
            · rw [if_neg fun hx => hkw hx.symm,
                getD_set_ne st₂ _ k _ hkw, hpt₂ k,
                if_pos ⟨hkmem, hkw⟩]
          · -- any other identity is untouched by this iteration
            have hknotmem : ¬(k = i₀ ∨ k ∈ (groupEntries v.FileName v.RelativePath
                (withIndexFrom (i₀ + 1) rest₂)).map Prod.fst) := by
              rintro (hz | hz)
              · rw [hz, hv] at hk
                cases hk
                exact hku ⟨rfl, rfl⟩
              · obtain ⟨w, hwget, hwfn, hwrp⟩ := hmemid k hz
                rw [hwget] at hk
                cases hk
                exact hku ⟨hwfn, hwrp⟩
            have hkw : k ≠ (winnerFold (v, i₀) (groupEntries v.FileName v.RelativePath
                (withIndexFrom (i₀ + 1) rest₂))).2 := by
              intro hx
              apply hknotmem
              rcases winnerFold_idx (v, i₀) (groupEntries v.FileName v.RelativePath
                (withIndexFrom (i₀ + 1) rest₂)) with h | h
              · left
                rw [hx, h]
              · right
                rw [hx]
                exact h
            have hki : k ≠ i₀ := fun hz => hknotmem (Or.inl hz)
            rw [getD_set_ne st₂ _ k _ hkw, hpt₂ k,
              if_neg (fun hx => hknotmem hx.1),
              getD_set_ne st i₀ k _ hki, hinv k u hk]
            apply invStatus_step matchRe rules l i₀ k u hki
            left
            intro hf
            exact hku (ident_of_firstIdxOf_eq l u v i₀ k hv hk hf)
        · -- the result list gains exactly the winner of the fresh group
          rw [hres, hwiftk, List.filter_append, List.map_append]
          have hsing : ([(i₀, v)].filter fun p =>
              !CheckRedundancy matchRe p.2 rules && decide (firstIdxOf l p.2 = p.1)) =
              [(i₀, v)] := by
            rw [List.filter_cons_of_pos, List.filter_nil]
            simp only [Bool.and_eq_true, Bool.not_eq_true', decide_eq_true_eq]
            exact ⟨hredf, hfeq⟩
          rw [hsing]
          simp only [List.map_cons, List.map_nil]
          rw [hwv]
        · rw [count_set_incr "[COPIED   ]" st₂ _ (by omega) hw2old, hcnt2, hcount,
            List.length_append]
          rfl

theorem count_replicate_zero (c a : String) (hne : a ≠ c) (n : Nat) :
    (List.replicate n a).count c = 0 := by
  induction n with
  | zero => rfl
  | succ n ih =>
    rw [List.replicate_succ, List.count_cons, ih]
    simp [hne]

theorem getD_replicate (a : String) (n : Nat) :
    ∀ (k : Nat), (List.replicate n a).getD k a = a := by
  induction n with
  | zero => intro k; cases k <;> rfl
  | succ n ih =>
    intro k
    cases k with
    | zero => rfl
    | succ k => exact ih k

theorem invStatus_zero (matchRe : String → String → Bool) (rules : List String)
    (l : List CustomisationFile) (k : Nat) (u : CustomisationFile) :
    invStatus matchRe rules l 0 k u = "" := by
  unfold invStatus
  split_ifs <;> first | rfl | omega

/-- Closed-form characterisation of ValidateCollectedFiles: when the rule
construction succeeds, the returned result list and status array are exactly
the specification functions, and the COPIED count equals the result length. -/
theorem ValidateCollectedFiles_spec (matchRe : String → String → Bool)
    (l : List CustomisationFile) (cfg rules : List String)
    (res : List CustomisationFile) (st : List String)
    (hr : buildRedundancyRules cfg = some rules)
    (hv : ValidateCollectedFiles matchRe l cfg = some (res, st)) :
    res = specResult matchRe rules l ∧
    st.length = l.length ∧
    (∀ k u, l.get? k = some u → st.getD k "" = specStatus matchRe rules l (k, u)) ∧
    st.count "[COPIED   ]" = res.length := by
  unfold ValidateCollectedFiles at hv
  rw [hr] at hv
  have hv' : (withIndexFrom 0 l).foldl (outerStep matchRe l rules)
      ([], List.replicate l.length "") = (res, st) := Option.some.inj hv
  obtain ⟨stf, heq, hlenf, hptf, hcntf⟩ := outerLoop_spec matchRe rules l l 0
    (List.replicate l.length "") []
    (List.drop_zero l)
    (List.length_replicate l.length "")
    (fun k u hk => by
      rw [getD_replicate "" l.length k, invStatus_zero])
    rfl
    (count_replicate_zero "[COPIED   ]" "" (by decide) l.length)
  rw [hv'] at heq
  have hres : res = specResult matchRe rules l := congrArg Prod.fst heq
  have hst : st = stf := congrArg Prod.snd heq
  refine ⟨hres, by rw [hst]; exact hlenf, fun k u hk => by rw [hst]; exact hptf k u hk, ?_⟩
  rw [hst, hcntf, hres]

theorem keyLt_irrefl (a : CustomisationFile) : ¬ keyLt a a := by
  unfold keyLt
  omega

theorem keyLt_trans (a b c : CustomisationFile) (h1 : keyLt a b) (h2 : keyLt b c) :
    keyLt a c := by
  unfold keyLt at *
  omega

theorem keyLt_of_keyLt_of_not (a b u : CustomisationFile)
    (h1 : keyLt a u) (h2 : ¬ keyLt b u) : keyLt a b := by
  unfold keyLt at *
  omega

theorem keyLt_of_not_of_keyLt (b u c : CustomisationFile)
    (h1 : ¬ keyLt b u) (h2 : keyLt b c) : keyLt u c := by
  unfold keyLt at *
  omega

/-- The winner fold returns the earliest entry of maximal (version, time) key:
it is one of the candidates, no candidate has a strictly greater key, and
every strictly earlier candidate has a strictly smaller key. -/
theorem winnerFold_max (ps : List (Nat × CustomisationFile)) :
    ∀ (b : CustomisationFile) (i : Nat),
      (∀ p ∈ ps, i < p.1) →
      List.Pairwise (fun p q => p.1 < q.1) ps →
      (winnerFold (b, i) ps = (b, i) ∨
        ((winnerFold (b, i) ps).2, (winnerFold (b, i) ps).1) ∈ ps) ∧
      (¬ keyLt (winnerFold (b, i) ps).1 b ∧
        ∀ p ∈ ps, ¬ keyLt (winnerFold (b, i) ps).1 p.2) ∧
      ((winnerFold (b, i) ps).2 ≠ i → keyLt b (winnerFold (b, i) ps).1) ∧
      (∀ p ∈ ps, p.1 < (winnerFold (b, i) ps).2 →
        keyLt p.2 (winnerFold (b, i) ps).1) := by
  induction ps with
  | nil =>
    intro b i _ _
    refine ⟨Or.inl rfl, ⟨keyLt_irrefl b, fun p hp => absurd hp (List.not_mem_nil p)⟩,
      fun hne => absurd rfl hne, fun p hp => absurd hp (List.not_mem_nil p)⟩
  | cons q t ih =>
    intro b i hgt hpw
    obtain ⟨j, u⟩ := q
    have hij : i < j := hgt (j, u) (List.mem_cons_self _ _)
    have hjt : ∀ p ∈ t, j < p.1 := fun p hp => (List.pairwise_cons.mp hpw).1 p hp
    have hit : ∀ p ∈ t, i < p.1 := fun p hp => hgt p (List.mem_cons_of_mem _ hp)
    have hpwt := (List.pairwise_cons.mp hpw).2
    by_cases hsec : FindNewFile b u = "second"
    · have hlt : keyLt b u := (FindNewFile_eq_second_iff b u).mp hsec
      have hfold : winnerFold (b, i) ((j, u) :: t) = winnerFold (u, j) t := by
        rw [winnerFold_cons, winnerStep_second b i j u hsec]
      obtain ⟨ih1, ⟨ih2a, ih2b⟩, ih3a, ih3b⟩ := ih u j hjt hpwt
      rw [hfold]
      refine ⟨?_, ⟨?_, ?_⟩, ?_, ?_⟩
      · rcases ih1 with h | h
        · right
          rw [h]
          exact List.mem_cons_self _ _
        · right
          exact List.mem_cons_of_mem _ h
      · intro hk
        exact ih2a (keyLt_trans _ _ _ hk hlt)
      · intro p hp
        rcases List.mem_cons.mp hp with h | h
        · rw [h]
          exact ih2a
        · exact ih2b p h
      · intro hne
        rcases ih1 with h | h
        · rw [h]
          exact hlt
        · have hj2 : j < (winnerFold (u, j) t).2 := hjt _ h
          exact keyLt_trans _ _ _ hlt (ih3a (by omega))
      · intro p hp hplt
        rcases List.mem_cons.mp hp with h | h
        · have hplt' : j < (winnerFold (u, j) t).2 := by
            rw [h] at hplt
            exact hplt
          rw [h]
          exact ih3a (by omega)
        · exact ih3b p h hplt
    · have hnlt : ¬ keyLt b u := fun hx => hsec ((FindNewFile_eq_second_iff b u).mpr hx)
      have hfold : winnerFold (b, i) ((j, u) :: t) = winnerFold (b, i) t := by
        rw [winnerFold_cons, winnerStep_keep b i j u hsec]
      obtain ⟨ih1, ⟨ih2a, ih2b⟩, ih3a, ih3b⟩ := ih b i hit hpwt
      rw [hfold]
      refine ⟨?_, ⟨ih2a, ?_⟩, ih3a, ?_⟩
      · rcases ih1 with h | h
        · exact Or.inl h
        · exact Or.inr (List.mem_cons_of_mem _ h)
      · intro p hp
        rcases List.mem_cons.mp hp with h | h
        · rw [h]
          intro hk
          exact ih2a (keyLt_of_keyLt_of_not _ _ _ hk hnlt)
        · exact ih2b p h
      · intro p hp hplt
        rcases List.mem_cons.mp hp with h | h
        · have hplt' : j < (winnerFold (b, i) t).2 := by
            rw [h] at hplt
            exact hplt
          have hne : (winnerFold (b, i) t).2 ≠ i := by omega
          rw [h]
          exact keyLt_of_not_of_keyLt _ _ _ hnlt (ih3a hne)
        · exact ih3b p h hplt

/-! ### Rule-construction lemmas -/

theorem eq_empty_of_data_nil (rf : String) (h : rf.data = []) : rf = "" := by
  obtain ⟨d⟩ := rf
  simp only [String.data] at h
  rw [h]

theorem buildRedundancyRule_empty : buildRedundancyRule "" = none := rfl

theorem buildRedundancyRule_cons (rf : String) (c : Char) (cs : List Char)
    (h : rf.data = c :: cs) :
    buildRedundancyRule rf =
      some ("(?i)" ++ (if c = '.' then rf ++ "$" else rf)) := by
  unfold buildRedundancyRule
  rw [h]

theorem buildConfiguredRules_cons_none (rf : String) (rest : List String)
    (h : buildRedundancyRule rf = none) :
    buildConfiguredRules (rf :: rest) = none := by
  simp only [buildConfiguredRules, h]

theorem buildConfiguredRules_cons_some (rf : String) (rest : List String)
    (r : String) (h : buildRedundancyRule rf = some r) :
    buildConfiguredRules (rf :: rest) =
      match buildConfiguredRules rest with
      | none => none
      | some rs => some (r :: rs) := by
  simp only [buildConfiguredRules, h]

theorem buildConfiguredRules_eq_none_iff (cfg : List String) :
    buildConfiguredRules cfg = none ↔ "" ∈ cfg := by
  induction cfg with
  | nil => simp [buildConfiguredRules]
  | cons rf rest ih =>
    rcases hrf : rf.data with _ | ⟨c, cs⟩
    · have hempty : rf = "" := eq_empty_of_data_nil rf hrf
      rw [buildConfiguredRules_cons_none rf rest (by rw [hempty]; rfl)]
      exact iff_of_true rfl (by rw [hempty]; exact List.mem_cons_self _ _)
    · have hne : rf ≠ "" := by
        intro hx
        rw [hx] at hrf
        cases hrf
      rw [buildConfiguredRules_cons_some rf rest _ (buildRedundancyRule_cons rf c cs hrf)]
      rcases hcr : buildConfiguredRules rest with _ | rs
      · simp only [hcr]
        exact iff_of_true trivial (List.mem_cons_of_mem _ (ih.mp hcr))
      · simp only [hcr]
        constructor
        · intro h
          cases h
        · intro hmem
          rcases List.mem_cons.mp hmem with h | h
          · exact absurd h.symm hne
          · rw [ih.mpr h] at hcr
            cases hcr

theorem buildConfiguredRules_closed (cfg : List String) (h : ¬ "" ∈ cfg) :
    buildConfiguredRules cfg = some (cfg.map fun rf =>
      "(?i)" ++ (if rf.data.head? = some '.' then rf ++ "$" else rf)) := by
  induction cfg with
  | nil => rfl
  | cons rf rest ih =>
    rcases hrf : rf.data with _ | ⟨c, cs⟩
    · exfalso
      apply h
      have hempty : rf = "" := eq_empty_of_data_nil rf hrf
      rw [← hempty]
      exact List.mem_cons_self _ _
    · rw [buildConfiguredRules_cons_some rf rest _ (buildRedundancyRule_cons rf c cs hrf)]
      simp only [ih (fun hx => h (List.mem_cons_of_mem _ hx)), List.map_cons]
      have hcond : (rf.data.head? = some '.') ↔ (c = '.') := by
        rw [hrf]
        simp
      by_cases hc : c = '.'
      · rw [if_pos hc, if_pos (hcond.mpr hc)]
      · rw [if_neg hc, if_neg (fun hx => hc (hcond.mp hx))]

theorem buildRedundancyRules_eq_none_iff (cfg : List String) :
    buildRedundancyRules cfg = none ↔ "" ∈ cfg := by
  unfold buildRedundancyRules
  rcases hcr : buildConfiguredRules cfg with _ | rs
  · simp only [hcr]
    exact iff_of_true trivial ((buildConfiguredRules_eq_none_iff cfg).mp hcr)
  · simp only [hcr]
    constructor
    · intro h
      cases h
    · intro hmem
      rw [(buildConfiguredRules_eq_none_iff cfg).mpr hmem] at hcr
      cases hcr

theorem buildRedundancyRules_closed (cfg : List String) (h : ¬ "" ∈ cfg) :
    buildRedundancyRules cfg = some ((cfg.map fun rf =>
      "(?i)" ++ (if rf.data.head? = some '.' then rf ++ "$" else rf)) ++
      ["(?i)readme", "(?i)\\.pdb$", "(?i)\\.md$"]) := by
  unfold buildRedundancyRules
  rw [buildConfiguredRules_closed cfg h]

theorem winnerOf_spec (l : List CustomisationFile) (v : CustomisationFile)
    (hne : groupOf l v ≠ []) :
    ((winnerOf l v).2, (winnerOf l v).1) ∈ groupOf l v ∧
    (∀ p ∈ groupOf l v, ¬ keyLt (winnerOf l v).1 p.2) ∧
    (∀ p ∈ groupOf l v, p.1 < (winnerOf l v).2 → keyLt p.2 (winnerOf l v).1) := by
  rcases hgo : groupOf l v with _ | ⟨hd, t⟩
  · exact absurd hgo hne
  · have hpw := groupOf_pairwise l v
    rw [hgo] at hpw
    have hjt : ∀ p ∈ t, hd.1 < p.1 := fun p hp => (List.pairwise_cons.mp hpw).1 p hp
    have hpwt := (List.pairwise_cons.mp hpw).2
    have hwin : winnerOf l v = winnerFold (hd.2, hd.1) t := by
      unfold winnerOf
      rw [hgo]
    obtain ⟨m1, ⟨m2a, m2b⟩, m3a, m3b⟩ := winnerFold_max t hd.2 hd.1 hjt hpwt
    rw [hwin]
    refine ⟨?_, ?_, ?_⟩
    · rcases m1 with h | h
      · rw [h]
        exact List.mem_cons_self _ _
      · exact List.mem_cons_of_mem _ h
    · intro p hp
      rcases List.mem_cons.mp hp with h | h
      · rw [h]
        exact m2a
      · exact m2b p h
    · intro p hp hlt
      rcases List.mem_cons.mp hp with h | h
      · have hlt' : hd.1 < (winnerFold (hd.2, hd.1) t).2 := by
          rw [h] at hlt
          exact hlt
        rw [h]
        exact m3a (by omega)
      · exact m3b p h hlt

theorem winnerOf_ident (l : List CustomisationFile) (v : CustomisationFile)
    (hne : groupOf l v ≠ []) :
    (winnerOf l v).1.FileName = v.FileName ∧
      (winnerOf l v).1.RelativePath = v.RelativePath := by
  have hm := (winnerOf_spec l v hne).1
  have hx := (mem_groupOf l v ((winnerOf l v).2, (winnerOf l v).1)).mp hm
  exact ⟨hx.2.1, hx.2.2⟩

theorem identKey_eq_iff (a b : CustomisationFile) :
    identKey a = identKey b ↔
      (a.FileName = b.FileName ∧ a.RelativePath = b.RelativePath) := by
  unfold identKey
  rw [Prod.mk.injEq]

theorem specStatus_cases (matchRe : String → String → Bool) (rules : List String)
    (l : List CustomisationFile) (p : Nat × CustomisationFile) :
    specStatus matchRe rules l p = "[COPIED   ]" ∨
    specStatus matchRe rules l p = "[SKIP     ]" ∨
    specStatus matchRe rules l p = "[REDUNDANT]" := by
  unfold specStatus
  split_ifs
  · exact Or.inr (Or.inr rfl)
  · exact Or.inl rfl
  · exact Or.inr (Or.inl rfl)

/-- C10: ValidateCollectedFiles hits the Go index-out-of-range panic (modelled
by `none`) exactly when some configured redundant-files pattern is the empty
string; this holds for every input file list, including the empty one, since
the rule construction precedes the scan of the list. -/
theorem validate_empty_pattern_panics (matchRe : String → String → Bool)
    (list : List CustomisationFile) (redundantCFG : List String) :
    ValidateCollectedFiles matchRe list redundantCFG = none ↔
      "" ∈ redundantCFG := by
  unfold ValidateCollectedFiles
  rcases hbr : buildRedundancyRules redundantCFG with _ | rules
  · simp only [hbr]
    exact iff_of_true trivial ((buildRedundancyRules_eq_none_iff _).mp hbr)
  · simp only [hbr]
    constructor
    · intro h
      cases h
    · intro hmem
      rw [(buildRedundancyRules_eq_none_iff _).mpr hmem] at hbr
      cases hbr

/-- C7: a candidate receives status REDUNDANT and its identity is excluded from
the result list exactly when its file name matches at least one rule of the
combined ordered rule list; that list is each configured pattern wrapped
case-insensitively (with the end-of-string anchor appended when the pattern
begins with a literal dot) followed by the three mandatory rules for readme,
.pdb and .md; this holds even when the candidate is alone at its identity. -/
theorem validate_redundant_iff_rule_match (matchRe : String → String → Bool)
    (l : List CustomisationFile) (cfg rules : List String)
    (res : List CustomisationFile) (st : List String)
    (hr : buildRedundancyRules cfg = some rules)
    (hv : ValidateCollectedFiles matchRe l cfg = some (res, st))
    (k : Nat) (u : CustomisationFile) (hk : l.get? k = some u) :
    rules = (cfg.map fun rf =>
        "(?i)" ++ (if rf.data.head? = some '.' then rf ++ "$" else rf)) ++
      ["(?i)readme", "(?i)\\.pdb$", "(?i)\\.md$"] ∧
    ((st.getD k "" = "[REDUNDANT]" ∧ ∀ r ∈ res, identKey r ≠ identKey u) ↔
      ∃ rule ∈ rules, matchRe rule u.FileName = true) := by
  obtain ⟨hres, hlen, hpt, hcnt⟩ :=
    ValidateCollectedFiles_spec matchRe l cfg rules res st hr hv
  constructor
  · have hnone : ¬ "" ∈ cfg := by
      intro hmem
      rw [(buildRedundancyRules_eq_none_iff cfg).mpr hmem] at hr
      cases hr
    rw [buildRedundancyRules_closed cfg hnone] at hr
    exact (Option.some.inj hr).symm
  · have hst := hpt k u hk
    constructor
    · rintro ⟨hred, -⟩
      rw [hst] at hred
      unfold specStatus at hred
      by_cases hcr : CheckRedundancy matchRe u rules = true
      · unfold CheckRedundancy at hcr
        obtain ⟨rule, hrule, hm⟩ := List.any_eq_true.mp hcr
        exact ⟨rule, hrule, hm⟩
      · rw [if_neg hcr] at hred
        exfalso
        split_ifs at hred <;> exact absurd hred (by decide)
    · rintro ⟨rule, hrule, hm⟩
      have hcr : CheckRedundancy matchRe u rules = true := by
        unfold CheckRedundancy
        exact List.any_eq_true.mpr ⟨rule, hrule, hm⟩
      refine ⟨by rw [hst]; unfold specStatus; rw [if_pos hcr], ?_⟩
      intro r hrmem hident
      rw [hres] at hrmem
      unfold specResult at hrmem
      obtain ⟨p, hpmem, hpr⟩ := List.mem_map.mp hrmem
      obtain ⟨hpwif, hpcond⟩ := List.mem_filter.mp hpmem
      have hgne : groupOf l p.2 ≠ [] := by
        have hself : (p.1, p.2) ∈ groupOf l p.2 :=
          mem_groupOf_self l p.1 p.2 (mem_withIndexFromZero p l hpwif)
        intro hnil
        rw [hnil] at hself
        cases hself
      have hident2 := winnerOf_ident l p.2 hgne
      have hpfn : r.FileName = p.2.FileName := by
        rw [← hpr]
        exact hident2.1
      have hru : r.FileName = u.FileName := congrArg Prod.fst hident
      have hredp : CheckRedundancy matchRe p.2 rules = true := by
        rw [CheckRedundancy_congr matchRe p.2 u rules (hpfn.symm.trans hru)]
        exact hcr
      simp only [Bool.and_eq_true, Bool.not_eq_true'] at hpcond
      rw [hpcond.1] at hredp
      cases hredp

/-- C2: the status array has exactly the input's length and only the three
status labels; the result list has pairwise distinct logical identities; every
identity with a non-redundant candidate has exactly one COPIED index; and the
COPIED count equals the result-list length. -/
theorem validate_uniqueness_and_statuses (matchRe : String → String → Bool)
    (l : List CustomisationFile) (cfg rules : List String)
    (res : List CustomisationFile) (st : List String)
    (hr : buildRedundancyRules cfg = some rules)
    (hv : ValidateCollectedFiles matchRe l cfg = some (res, st)) :
    st.length = l.length ∧
    (∀ s ∈ st, s = "[COPIED   ]" ∨ s = "[SKIP     ]" ∨ s = "[REDUNDANT]") ∧
    List.Pairwise (fun a b => identKey a ≠ identKey b) res ∧
    (∀ k u, l.get? k = some u → CheckRedundancy matchRe u rules = false →
      ∃ j w, l.get? j = some w ∧ identKey w = identKey u ∧
        st.getD j "" = "[COPIED   ]" ∧
        ∀ j2 w2, l.get? j2 = some w2 → identKey w2 = identKey u →
          st.getD j2 "" = "[COPIED   ]" → j2 = j) ∧
    st.count "[COPIED   ]" = res.length := by
  obtain ⟨hres, hlen, hpt, hcnt⟩ :=
    ValidateCollectedFiles_spec matchRe l cfg rules res st hr hv
  refine ⟨hlen, ?_, ?_, ?_, hcnt⟩
  · -- every status is one of the three labels
    intro s hs
    obtain ⟨n, hn⟩ := List.mem_iff_get?.mp hs
    have hnlt : n < l.length := by
      rw [← hlen]
      exact get?_lt_length st n s hn
    rcases hu : l.get? n with _ | u
    · have := List.get?_eq_none.mp hu
      omega
    · have hsv : st.getD n "" = s := by
        show (st.get? n).getD "" = s
        rw [hn]
        rfl
      rw [hpt n u hu] at hsv
      rw [← hsv]
      exact specStatus_cases matchRe rules l (n, u)
  · -- pairwise distinct identities in the result list
    rw [hres]
    unfold specResult
    rw [List.pairwise_map]
    have hpw : List.Pairwise (fun p q : Nat × CustomisationFile => p.1 < q.1)
        ((withIndexFrom 0 l).filter fun p =>
          !CheckRedundancy matchRe p.2 rules && decide (firstIdxOf l p.2 = p.1)) :=
      List.Pairwise.filter _ (withIndexFrom_pairwise 0 l)
    refine hpw.imp_of_mem ?_
    intro a b ha hb hlt heq
    obtain ⟨hawif, hacond⟩ := List.mem_filter.mp ha
    obtain ⟨hbwif, hbcond⟩ := List.mem_filter.mp hb
    simp only [Bool.and_eq_true, Bool.not_eq_true', decide_eq_true_eq] at hacond hbcond
    have hane : groupOf l a.2 ≠ [] := by
      have hself : (a.1, a.2) ∈ groupOf l a.2 :=
        mem_groupOf_self l a.1 a.2 (mem_withIndexFromZero a l hawif)
      intro hnil
      rw [hnil] at hself
      cases hself
    have hbne : groupOf l b.2 ≠ [] := by
      have hself : (b.1, b.2) ∈ groupOf l b.2 :=
        mem_groupOf_self l b.1 b.2 (mem_withIndexFromZero b l hbwif)
      intro hnil
      rw [hnil] at hself
      cases hself
    have hida := winnerOf_ident l a.2 hane
    have hidb := winnerOf_ident l b.2 hbne
    have hab : a.2.FileName = b.2.FileName ∧ a.2.RelativePath = b.2.RelativePath := by
      have h1 := (identKey_eq_iff _ _).mp heq
      exact ⟨(hida.1.symm.trans h1.1).trans hidb.1,
        (hida.2.symm.trans h1.2).trans hidb.2⟩
    have : a.1 = b.1 := by
      rw [← hacond.2, ← hbcond.2]
      exact firstIdxOf_congr l a.2 b.2 hab.1 hab.2
    omega
  · -- exactly one COPIED index per identity with a non-redundant candidate
    intro k u hk hredu
    have hself : (k, u) ∈ groupOf l u := mem_groupOf_self l k u hk
    have hune : groupOf l u ≠ [] := by
      intro hnil
      rw [hnil] at hself
      cases hself
    obtain ⟨hmemw, -, -⟩ := winnerOf_spec l u hune
    have hwget : l.get? (winnerOf l u).2 = some (winnerOf l u).1 :=
      groupOf_entry l u _ hmemw
    have hwid := winnerOf_ident l u hune
    refine ⟨(winnerOf l u).2, (winnerOf l u).1, hwget,
      (identKey_eq_iff _ _).mpr ⟨hwid.1, hwid.2⟩, ?_, ?_⟩
    · rw [hpt _ _ hwget]
      unfold specStatus
      rw [if_neg (by
          rw [CheckRedundancy_congr matchRe (winnerOf l u).1 u rules hwid.1, hredu]
          exact Bool.false_ne_true),
        if_pos (by
          rw [winnerOf_congr l (winnerOf l u).1 u hwid.1 hwid.2 hune])]
    · intro j2 w2 hj2 hidw2 hcop
      rw [hpt j2 w2 hj2] at hcop
      unfold specStatus at hcop
      have hw2id := (identKey_eq_iff _ _).mp hidw2
      rw [if_neg (by
          rw [CheckRedundancy_congr matchRe w2 u rules hw2id.1, hredu]
          exact Bool.false_ne_true)] at hcop
      by_cases hj : (winnerOf l w2).2 = j2
      · rw [← hj, winnerOf_congr l w2 u hw2id.1 hw2id.2 hune]
      · rw [if_neg hj] at hcop
        exact absurd hcop (by decide)

/-- C3: within an identity group with more than one (necessarily non-redundant)
member, the retained candidate has the maximal packed version, among equal
versions the latest write time, and among full ties the earliest input
position; all other group members receive status SKIP, and the retained
candidate is in the result list. -/
theorem validate_version_precedence (matchRe : String → String → Bool)
    (l : List CustomisationFile) (cfg rules : List String)
    (res : List CustomisationFile) (st : List String) (v : CustomisationFile)
    (hr : buildRedundancyRules cfg = some rules)
    (hv : ValidateCollectedFiles matchRe l cfg = some (res, st))
    (hgrp : 1 < (groupOf l v).length)
    (hnr : CheckRedundancy matchRe v rules = false) :
    ∃ wi w, (wi, w) ∈ groupOf l v ∧ w ∈ res ∧ st.getD wi "" = "[COPIED   ]" ∧
      (∀ p ∈ groupOf l v, p.2.Version.full ≤ w.Version.full) ∧
      (∀ p ∈ groupOf l v, p.2.Version.full = w.Version.full →
        p.2.LastWriteTime ≤ w.LastWriteTime) ∧
      (∀ p ∈ groupOf l v, p.1 < wi →
        p.2.Version.full < w.Version.full ∨
          (p.2.Version.full = w.Version.full ∧
            p.2.LastWriteTime < w.LastWriteTime)) ∧
      (∀ p ∈ groupOf l v, p.1 ≠ wi → st.getD p.1 "" = "[SKIP     ]") := by
  obtain ⟨hres, hlen, hpt, hcnt⟩ :=
    ValidateCollectedFiles_spec matchRe l cfg rules res st hr hv
  have hne : groupOf l v ≠ [] := by
    intro hnil
    rw [hnil] at hgrp
    simp at hgrp
  obtain ⟨hmemw, hmax, hearliest⟩ := winnerOf_spec l v hne
  have hmatches := (mem_groupOf l v _).mp hmemw
  have hwfn : (winnerOf l v).1.FileName = v.FileName := hmatches.2.1
  have hwrp : (winnerOf l v).1.RelativePath = v.RelativePath := hmatches.2.2
  have hwget : l.get? (winnerOf l v).2 = some (winnerOf l v).1 :=
    groupOf_entry l v _ hmemw
  refine ⟨(winnerOf l v).2, (winnerOf l v).1, hmemw, ?_, ?_, ?_, ?_, ?_, ?_⟩
  · -- the winner is in the result list, through the group's first entry
    rcases hgo : groupOf l v with _ | ⟨hd, t⟩
    · exact absurd hgo hne
    · have hhd : hd ∈ groupOf l v := by
        rw [hgo]
        exact List.mem_cons_self _ _
      have hhdm := (mem_groupOf l v hd).mp hhd
      have hhdne : groupOf l hd.2 ≠ [] := by
        rw [groupOf_congr l hd.2 v hhdm.2.1 hhdm.2.2]
        exact hne
      have hfi : firstIdxOf l hd.2 = hd.1 := by
        rw [firstIdxOf_congr l hd.2 v hhdm.2.1 hhdm.2.2]
        unfold firstIdxOf
        rw [hgo]
      have hcond : (!CheckRedundancy matchRe hd.2 rules &&
          decide (firstIdxOf l hd.2 = hd.1)) = true := by
        simp only [Bool.and_eq_true, Bool.not_eq_true', decide_eq_true_eq]
        exact ⟨by rw [CheckRedundancy_congr matchRe hd.2 v rules hhdm.2.1]; exact hnr, hfi⟩
      have hmem2 : hd ∈ (withIndexFrom 0 l).filter fun p =>
          !CheckRedundancy matchRe p.2 rules && decide (firstIdxOf l p.2 = p.1) :=
        List.mem_filter.mpr ⟨hhdm.1, hcond⟩
      rw [hres]
      unfold specResult
      apply List.mem_map.mpr
      refine ⟨hd, hmem2, ?_⟩
      show (winnerOf l hd.2).1 = (winnerOf l v).1
      rw [winnerOf_congr l hd.2 v hhdm.2.1 hhdm.2.2 hne]
  · rw [hpt _ _ hwget]
    unfold specStatus
    rw [if_neg (by
        rw [CheckRedundancy_congr matchRe (winnerOf l v).1 v rules hwfn, hnr]
        exact Bool.false_ne_true),
      if_pos (by rw [winnerOf_congr l (winnerOf l v).1 v hwfn hwrp hne])]
  · intro p hp
    have := hmax p hp
    unfold keyLt at this
    omega
  · intro p hp hfull
    have := hmax p hp
    unfold keyLt at this
    omega
  · intro p hp hlt
    have := hearliest p hp hlt
    unfold keyLt at this
    omega
  · intro p hp hne2
    have hpm := (mem_groupOf l v p).mp hp
    have hpget : l.get? p.1 = some p.2 := groupOf_entry l v p hp
    rw [hpt _ _ hpget]
    unfold specStatus
    rw [if_neg (by
        rw [CheckRedundancy_congr matchRe p.2 v rules hpm.2.1, hnr]
        exact Bool.false_ne_true),
      if_neg (by
        rw [winnerOf_congr l p.2 v hpm.2.1 hpm.2.2 hne]
        exact fun hx => hne2 hx.symm)]

/-- Witness for C7 at a concrete input: the sample readme candidate is marked
REDUNDANT and excluded because its name matches the mandatory readme rule. -/
theorem validate_redundant_iff_rule_match_witness :
    buildRedundancyRules [] = some ["(?i)readme", "(?i)\\.pdb$", "(?i)\\.md$"] ∧
    ValidateCollectedFiles readmeMatcher [sampleReadme] [] =
      some ([], ["[REDUNDANT]"]) ∧
    ((["[REDUNDANT]"] : List String).getD 0 "" = "[REDUNDANT]" ∧
      ∀ r ∈ ([] : List CustomisationFile), identKey r ≠ identKey sampleReadme) := by
  refine ⟨rfl, rfl, ?_⟩
  have h := validate_redundant_iff_rule_match readmeMatcher [sampleReadme] []
    ["(?i)readme", "(?i)\\.pdb$", "(?i)\\.md$"] [] ["[REDUNDANT]"] rfl rfl 0
    sampleReadme rfl
  exact h.2.mpr ⟨"(?i)readme", by decide, by decide⟩

/-- Witness for C2 at a concrete input: two candidates of one identity produce
a status array of length two, a singleton distinct-identity result, and a
COPIED count equal to the result length. -/
theorem validate_uniqueness_and_statuses_witness :
    buildRedundancyRules [] = some ["(?i)readme", "(?i)\\.pdb$", "(?i)\\.md$"] ∧
    ValidateCollectedFiles (fun _ _ => false) [sampleOldA, sampleNewA] [] =
      some ([sampleNewA], ["[SKIP     ]", "[COPIED   ]"]) ∧
    (["[SKIP     ]", "[COPIED   ]"] : List String).length =
      ([sampleOldA, sampleNewA] : List CustomisationFile).length ∧
    List.Pairwise (fun a b => identKey a ≠ identKey b) [sampleNewA] ∧
    List.count "[COPIED   ]" ["[SKIP     ]", "[COPIED   ]"] =
      ([sampleNewA] : List CustomisationFile).length := by
  have h := validate_uniqueness_and_statuses (fun _ _ => false)
    [sampleOldA, sampleNewA] [] ["(?i)readme", "(?i)\\.pdb$", "(?i)\\.md$"]
    [sampleNewA] ["[SKIP     ]", "[COPIED   ]"] rfl rfl
  exact ⟨rfl, rfl, h.1, h.2.2.1, h.2.2.2.2⟩

/-- Witness for C3 at a concrete input: between an older build with a later
write time and a newer build, the newer build wins, is COPIED, and dominates
the group in packed version. -/
theorem validate_version_precedence_witness :
    buildRedundancyRules [] = some ["(?i)readme", "(?i)\\.pdb$", "(?i)\\.md$"] ∧
    ValidateCollectedFiles (fun _ _ => false) [sampleOldA, sampleNewA] [] =
      some ([sampleNewA], ["[SKIP     ]", "[COPIED   ]"]) ∧
    1 < (groupOf [sampleOldA, sampleNewA] sampleOldA).length ∧
    ∃ wi w, (wi, w) ∈ groupOf [sampleOldA, sampleNewA] sampleOldA ∧
      w ∈ [sampleNewA] ∧
      (["[SKIP     ]", "[COPIED   ]"] : List String).getD wi "" = "[COPIED   ]" ∧
      ∀ p ∈ groupOf [sampleOldA, sampleNewA] sampleOldA,
        p.2.Version.full ≤ w.Version.full := by
  refine ⟨rfl, rfl, by decide, ?_⟩
  obtain ⟨wi, w, h1, h2, h3, h4, -⟩ := validate_version_precedence
    (fun _ _ => false) [sampleOldA, sampleNewA] []
    ["(?i)readme", "(?i)\\.pdb$", "(?i)\\.md$"] [sampleNewA]
    ["[SKIP     ]", "[COPIED   ]"] sampleOldA rfl rfl (by decide) rfl
  exact ⟨wi, w, h1, h2, h3, h4⟩

theorem bindAttrs_lineAttrs (cf : CustomisationFile) :
    bindAttrs (lineAttrs cf) = decodeOffset cf := rfl

theorem line_shape (cf : CustomisationFile) (rest : List Char) :
    (ConstructLineForCustomFilesRegistryKey cf).data ++ rest =
      "  <ApplicationFile".data ++ lineTailChunk cf rest := by
  simp only [ConstructLineForCustomFilesRegistryKey, RegFilesFileNameXML,
    RegFilesRelativePathXML, RegFilesDataFileXML, RegFilesEntryPointXML,
    RegFilesIsMainConfigFileXML, RegFilesOptionalXML, RegFilesGroupNameXML,
    RegFilesTailXML, lineTailChunk, attrChunk, quoteChar, String.data_append,
    List.append_assoc, List.cons_append, List.nil_append, List.append_nil]

theorem dropPrefixChars_append (p s : List Char) :
    dropPrefixChars p (p ++ s) = some s := by
  induction p with
  | nil => rfl
  | cons c t ih =>
    show dropPrefixChars (c :: t) (c :: (t ++ s)) = some s
    unfold dropPrefixChars
    rw [if_pos rfl]
    exact ih

theorem takeWhile_middle (p : Char → Bool) (v w : List Char) (q : Char)
    (hv : ∀ c ∈ v, p c = true) (hq : p q = false) :
    (v ++ q :: w).takeWhile p = v ∧ (v ++ q :: w).dropWhile p = q :: w := by
  induction v with
  | nil =>
    simp only [List.nil_append, List.takeWhile_cons, List.dropWhile_cons, hq]
    exact ⟨rfl, rfl⟩
  | cons c t ih =>
    have hc : p c = true := hv c (List.mem_cons_self c t)
    have ht : ∀ x ∈ t, p x = true := fun x hx => hv x (List.mem_cons_of_mem c hx)
    obtain ⟨ih1, ih2⟩ := ih ht
    constructor
    · show (c :: (t ++ q :: w)).takeWhile p = c :: t
      simp [List.takeWhile_cons, hc, ih1]
    · show (c :: (t ++ q :: w)).dropWhile p = q :: w
      rw [List.dropWhile_cons, hc]
      · exact ih2

theorem parseOneAttr_chunk (label v : String) (rest : List Char)
    (hl1 : label.data ≠ [])
    (hl2 : ∀ c ∈ label.data, attrNameChar c = true)
    (hv : quoteChar ∉ v.data) :
    parseOneAttr (attrChunk label v rest) = some ((label, v), rest) := by
  have hveq : ∀ c ∈ v.data, (!(c == quoteChar)) = true := by
    intro c hc
    simp only [Bool.not_eq_true', beq_eq_false_iff_ne, ne_eq]
    intro he
    exact hv (he ▸ hc)
  have hqf : (!(quoteChar == quoteChar)) = false := by decide
  have heqf : attrNameChar '=' = false := by decide
  obtain ⟨ht1, ht2⟩ := takeWhile_middle attrNameChar label.data
    (quoteChar :: (v.data ++ quoteChar :: rest)) '=' hl2 heqf
  obtain ⟨hw1, hw2⟩ := takeWhile_middle (fun c => !(c == quoteChar)) v.data rest
    quoteChar hveq hqf
  rcases hld : label.data with _ | ⟨c, t⟩
  · exact absurd hld hl1
  rw [hld] at ht1 ht2
  unfold attrChunk
  rw [hld]
  simp only [List.cons_append, List.append_assoc] at ht1 ht2 ⊢
  have hsp : ∀ rest1, parseOneAttr (' ' :: rest1) =
      (match rest1.takeWhile attrNameChar, rest1.dropWhile attrNameChar with
        | [], _ => none
        | nm, '=' :: q :: rest3 =>
          if q = quoteChar then
            match rest3.dropWhile (fun c => !(c == quoteChar)) with
            | _ :: rest4 =>
              some ((⟨nm⟩, ⟨rest3.takeWhile (fun c => !(c == quoteChar))⟩), rest4)
            | [] => none
          else none
        | _, _ => none) := fun _ => rfl
  rw [hsp, ht1, ht2]
  show (if quoteChar = quoteChar then
      match (v.data ++ quoteChar :: rest).dropWhile (fun c => !(c == quoteChar)) with
      | _ :: rest4 =>
        some (((⟨c :: t⟩ : String),
          (⟨(v.data ++ quoteChar :: rest).takeWhile (fun c => !(c == quoteChar))⟩ : String)), rest4)
      | [] => none
    else none) = some ((label, v), rest)
  rw [if_pos rfl, hw2, hw1]
  show some (((⟨c :: t⟩ : String), (⟨v.data⟩ : String)), rest) = some ((label, v), rest)
  rw [← hld]

theorem parseAttrs_close (fuel : Nat) (rest : List Char) :
    parseAttrs fuel (' ' :: '/' :: '>' :: '\n' :: rest) = some ([], rest) := by
  cases fuel with
  | zero => rfl
  | succ fuel => rfl

theorem dropClose_attrChunk (label v : String) (rest : List Char)
    (hl1 : label.data ≠ []) (hlh : label.data.head? ≠ some '/') :
    dropPrefixChars [' ', '/', '>', '\n'] (attrChunk label v rest) = none := by
  rcases hld : label.data with _ | ⟨c, t⟩
  · exact absurd hld hl1
  have hc : c ≠ '/' := by
    rw [hld] at hlh
    simp only [List.head?_cons, ne_eq, Option.some.injEq] at hlh
    exact hlh
  unfold attrChunk
  rw [hld]
  simp only [List.cons_append, List.append_assoc]
  show dropPrefixChars ['/', '>', '\n']
      (c :: (t ++ '=' :: quoteChar :: (v.data ++ quoteChar :: rest))) = none
  show (if ('/' : Char) = c then
      dropPrefixChars ['>', '\n'] (t ++ '=' :: quoteChar :: (v.data ++ quoteChar :: rest))
    else none) = none
  exact if_neg (fun h => hc h.symm)

theorem parseAttrs_cons (fuel : Nat) (s : List Char) (a : String × String)
    (rest : List Char)
    (hclose : dropPrefixChars [' ', '/', '>', '\n'] s = none)
    (hone : parseOneAttr s = some (a, rest)) :
    parseAttrs (fuel + 1) s =
      (parseAttrs fuel rest).map fun r => (a :: r.1, r.2) := by
  simp only [parseAttrs]
  rw [hclose, hone]

theorem parseAttrs_lineTail (fuel : Nat) (cf : CustomisationFile) (rest : List Char)
    (hg : goodFile cf) :
    parseAttrs (fuel + 7) (lineTailChunk cf rest) = some (lineAttrs cf, rest) := by
  obtain ⟨hg1, hg2, hg3, hg4, hg5, hg6⟩ := hg
  unfold lineTailChunk
  rw [parseAttrs_cons (fuel + 6) _ _ _
    (dropClose_attrChunk "FileName" cf.FileName _ (by decide) (by decide))
    (parseOneAttr_chunk "FileName" cf.FileName _ (by decide) (by decide) hg1)]
  rw [parseAttrs_cons (fuel + 5) _ _ _
    (dropClose_attrChunk "RelativePath" cf.RelativePath _ (by decide) (by decide))
    (parseOneAttr_chunk "RelativePath" cf.RelativePath _ (by decide) (by decide) hg2)]
  rw [parseAttrs_cons (fuel + 4) _ _ _
    (dropClose_attrChunk "DataFile" cf.EntryPoint _ (by decide) (by decide))
    (parseOneAttr_chunk "DataFile" cf.EntryPoint _ (by decide) (by decide) hg3)]
  rw [parseAttrs_cons (fuel + 3) _ _ _
    (dropClose_attrChunk "EntryPoint" cf.IsMainConfigFile _ (by decide) (by decide))
    (parseOneAttr_chunk "EntryPoint" cf.IsMainConfigFile _ (by decide) (by decide) hg4)]
  rw [parseAttrs_cons (fuel + 2) _ _ _
    (dropClose_attrChunk "IsMainConfigFile" cf.IsMainConfigFile _ (by decide) (by decide))
    (parseOneAttr_chunk "IsMainConfigFile" cf.IsMainConfigFile _ (by decide) (by decide) hg4)]
  rw [parseAttrs_cons (fuel + 1) _ _ _
    (dropClose_attrChunk "Optional" cf.Optional _ (by decide) (by decide))
    (parseOneAttr_chunk "Optional" cf.Optional _ (by decide) (by decide) hg5)]
  rw [parseAttrs_cons fuel _ _ _
    (dropClose_attrChunk "GroupName" cf.GroupName _ (by decide) (by decide))
    (parseOneAttr_chunk "GroupName" cf.GroupName _ (by decide) (by decide) hg6)]
  rw [parseAttrs_close fuel rest]
  rfl

theorem lineTailChunk_length (cf : CustomisationFile) (rest : List Char) :
    ∃ k, (lineTailChunk cf rest).length = k + 7 := by
  refine ⟨(lineTailChunk cf rest).length - 7, ?_⟩
  have h : 7 ≤ (lineTailChunk cf rest).length := by
    simp only [lineTailChunk, attrChunk, List.length_cons, List.length_append]
    omega
  omega

theorem parseElements_ending (fuel : Nat) (extra : List Char) :
    parseElements fuel (RegFilesEndingXML.data ++ extra) = some [] := by
  cases fuel with
  | zero =>
    simp only [parseElements]
    rw [dropPrefixChars_append]
  | succ fuel =>
    simp only [parseElements]
    rw [dropPrefixChars_append]

theorem parseElements_line (fuel : Nat) (cf : CustomisationFile) (rest : List Char)
    (hg : goodFile cf) :
    parseElements (fuel + 1) ((ConstructLineForCustomFilesRegistryKey cf).data ++ rest) =
      (parseElements fuel rest).map fun es => lineAttrs cf :: es := by
  rw [line_shape]
  have hno : dropPrefixChars RegFilesEndingXML.data
      ("  <ApplicationFile".data ++ lineTailChunk cf rest) = none := rfl
  have hop : dropPrefixChars "  <ApplicationFile".data
      ("  <ApplicationFile".data ++ lineTailChunk cf rest) = some (lineTailChunk cf rest) :=
    dropPrefixChars_append _ _
  obtain ⟨k, hk⟩ := lineTailChunk_length cf rest
  simp only [parseElements]
  rw [hno, hop]
  show (match parseAttrs (lineTailChunk cf rest).length (lineTailChunk cf rest) with
    | none => none
    | some (attrs, rest2) => Option.map (fun es => attrs :: es) (parseElements fuel rest2)) =
    Option.map (fun es => lineAttrs cf :: es) (parseElements fuel rest)
  rw [hk, parseAttrs_lineTail k cf rest hg]

theorem construct_foldl_data (l : List CustomisationFile) :
    ∀ a : String,
      (l.foldl (fun result file => result ++ ConstructLineForCustomFilesRegistryKey file) a).data =
        a.data ++ bodyChars l := by
  induction l with
  | nil => intro a; simp [bodyChars]
  | cons cf t ih =>
    intro a
    show (t.foldl (fun result file => result ++ ConstructLineForCustomFilesRegistryKey file)
        (a ++ ConstructLineForCustomFilesRegistryKey cf)).data = _
    rw [ih (a ++ ConstructLineForCustomFilesRegistryKey cf)]
    simp [bodyChars, String.data_append, List.append_assoc]

theorem construct_data (l : List CustomisationFile) :
    (ConstructCustomFilesRegistryKey l).data =
      RegFilesHeadXML.data ++ (bodyChars l ++ RegFilesEndingXML.data) := by
  unfold ConstructCustomFilesRegistryKey
  rw [String.data_append, construct_foldl_data l RegFilesHeadXML, List.append_assoc]

theorem parseElements_body (l : List CustomisationFile) (hgood : ∀ cf ∈ l, goodFile cf) :
    ∀ fuel, parseElements (fuel + l.length) (bodyChars l ++ RegFilesEndingXML.data) =
      some (l.map lineAttrs) := by
  induction l with
  | nil =>
    intro fuel
    show parseElements fuel ([] ++ RegFilesEndingXML.data) = some []
    rw [List.nil_append]
    have := parseElements_ending fuel []
    rwa [List.append_nil] at this
  | cons cf t ih =>
    intro fuel
    show parseElements (fuel + (t.length + 1))
      (((ConstructLineForCustomFilesRegistryKey cf).data ++ bodyChars t) ++
        RegFilesEndingXML.data) = _
    rw [List.append_assoc]
    have he : fuel + (t.length + 1) = (fuel + t.length) + 1 := rfl
    rw [he, parseElements_line (fuel + t.length) cf _
      (hgood cf (List.mem_cons_self cf t))]
    rw [ih (fun x hx => hgood x (List.mem_cons_of_mem cf hx)) fuel]
    rfl

theorem bodyChars_length_ge (l : List CustomisationFile) :
    l.length ≤ (bodyChars l).length := by
  induction l with
  | nil => simp [bodyChars]
  | cons cf t ih =>
    show t.length + 1 ≤ ((ConstructLineForCustomFilesRegistryKey cf).data ++ bodyChars t).length
    rw [List.length_append]
    have h1 : 1 ≤ (ConstructLineForCustomFilesRegistryKey cf).data.length := by
      have := line_shape cf []
      rw [List.append_nil] at this
      rw [this, List.length_append]
      rw [show ("  <ApplicationFile".data).length = 18 from rfl]
      omega
    omega

theorem plainFile_goodFile (cf : CustomisationFile) (hp : plainFile cf) :
    goodFile cf := by
  obtain ⟨⟨f1, -, -⟩, ⟨r1, -, -⟩, ⟨e1, -, -⟩, ⟨m1, -, -⟩, ⟨o1, -, -⟩, ⟨g1, -, -⟩⟩ := hp
  exact ⟨f1, r1, e1, m1, o1, g1⟩

theorem unescapeChars_plain :
    ∀ v : List Char, '&' ∉ v → '<' ∉ v → ∀ fuel, v.length ≤ fuel →
      unescapeChars fuel v = some v := by
  intro v
  induction v with
  | nil =>
    intro _ _ fuel _
    cases fuel with
    | zero => rfl
    | succ f => rfl
  | cons c t ih =>
    intro h1 h2 fuel hlen
    have hc1 : c ≠ '<' := by
      intro he
      subst he
      exact h2 (List.mem_cons_self _ _)
    have hc2 : c ≠ '&' := by
      intro he
      subst he
      exact h1 (List.mem_cons_self _ _)
    have h1t : '&' ∉ t := fun hm => h1 (List.mem_cons_of_mem c hm)
    have h2t : '<' ∉ t := fun hm => h2 (List.mem_cons_of_mem c hm)
    rw [List.length_cons] at hlen
    cases fuel with
    | zero => omega
    | succ f =>
      simp only [unescapeChars]
      rw [if_neg hc1, if_neg hc2, ih h1t h2t f (by omega)]
      rfl

theorem unescapeAttrs_plain (attrs : List (String × String))
    (h : ∀ a ∈ attrs, '&' ∉ a.2.data ∧ '<' ∉ a.2.data) :
    unescapeAttrs attrs = some attrs := by
  induction attrs with
  | nil => rfl
  | cons a t ih =>
    obtain ⟨h1, h2⟩ := h a (List.mem_cons_self a t)
    simp only [unescapeAttrs]
    rw [unescapeChars_plain a.2.data h1 h2 a.2.data.length (le_refl _)]
    rw [ih fun x hx => h x (List.mem_cons_of_mem a hx)]
    rfl

theorem unescapeElements_plain (lists : List (List (String × String)))
    (h : ∀ attrs ∈ lists, ∀ a ∈ attrs, '&' ∉ a.2.data ∧ '<' ∉ a.2.data) :
    unescapeElements lists = some lists := by
  induction lists with
  | nil => rfl
  | cons attrs t ih =>
    simp only [unescapeElements]
    rw [unescapeAttrs_plain attrs (h attrs (List.mem_cons_self attrs t))]
    rw [ih fun x hx => h x (List.mem_cons_of_mem attrs hx)]
    rfl

theorem lineAttrs_values_plain (cf : CustomisationFile) (hp : plainFile cf) :
    ∀ a ∈ lineAttrs cf, '&' ∉ a.2.data ∧ '<' ∉ a.2.data := by
  obtain ⟨⟨-, f2, f3⟩, ⟨-, r2, r3⟩, ⟨-, e2, e3⟩, ⟨-, m2, m3⟩, ⟨-, o2, o3⟩,
    ⟨-, g2, g3⟩⟩ := hp
  intro a ha
  simp only [lineAttrs, List.mem_cons, List.not_mem_nil, or_false] at ha
  rcases ha with rfl | rfl | rfl | rfl | rfl | rfl | rfl
  · exact ⟨f2, f3⟩
  · exact ⟨r2, r3⟩
  · exact ⟨e2, e3⟩
  · exact ⟨m2, m3⟩
  · exact ⟨m2, m3⟩
  · exact ⟨o2, o3⟩
  · exact ⟨g2, g3⟩

theorem ParseOld_Construct (l : List CustomisationFile)
    (hplain : ∀ cf ∈ l, plainFile cf) :
    ParseOldCustomFilesValue (ConstructCustomFilesRegistryKey l) =
      Except.ok (l.map decodeOffset) := by
  have hgood : ∀ cf ∈ l, goodFile cf :=
    fun cf hcf => plainFile_goodFile cf (hplain cf hcf)
  unfold ParseOldCustomFilesValue
  rw [construct_data, dropPrefixChars_append]
  have hlen : ∃ k, (bodyChars l ++ RegFilesEndingXML.data).length = k + l.length := by
    refine ⟨(bodyChars l ++ RegFilesEndingXML.data).length - l.length, ?_⟩
    have h1 := bodyChars_length_ge l
    rw [List.length_append]
    omega
  obtain ⟨k, hk⟩ := hlen
  show (match parseElements (bodyChars l ++ RegFilesEndingXML.data).length
      (bodyChars l ++ RegFilesEndingXML.data) with
    | none => Except.error "XML syntax error"
    | some attrLists =>
      match unescapeElements attrLists with
      | none => Except.error "XML syntax error"
      | some decoded => Except.ok (decoded.map bindAttrs)) = _
  rw [hk, parseElements_body l hgood k]
  show (match unescapeElements (l.map lineAttrs) with
    | none => Except.error "XML syntax error"
    | some decoded => Except.ok (decoded.map bindAttrs)) = _
  have hun : unescapeElements (l.map lineAttrs) = some (l.map lineAttrs) := by
    apply unescapeElements_plain
    intro attrs hattrs
    obtain ⟨cf, hcf, hce⟩ := List.mem_map.mp hattrs
    rw [← hce]
    exact lineAttrs_values_plain cf (hplain cf hcf)
  rw [hun]
  show Except.ok ((l.map lineAttrs).map bindAttrs) = _
  rw [List.map_map]
  have hfe : bindAttrs ∘ lineAttrs = decodeOffset :=
    funext fun cf => bindAttrs_lineAttrs cf
  rw [hfe]

set_option maxRecDepth 8000 in
/-- Fidelity exhibit: a valid amp entity in an attribute value is resolved
to the ampersand character, as the strict Go decoder resolves it. -/
theorem parse_resolves_amp_entity :
    ParseOldCustomFilesValue (RegFilesHeadXML ++
        "  <ApplicationFile GroupName=\x22a&amp;b\x22 />\n" ++ RegFilesEndingXML) =
      Except.ok [{ emptyCustomisationFile with GroupName := "a&b" }] := rfl

set_option maxRecDepth 8000 in
/-- Fidelity exhibit: a bare ampersand in an attribute value fails the
decode, as the strict Go decoder rejects an invalid character entity. -/
theorem parse_rejects_bare_amp :
    ParseOldCustomFilesValue (RegFilesHeadXML ++
        "  <ApplicationFile GroupName=\x22a&b\x22 />\n" ++ RegFilesEndingXML) =
      Except.error "XML syntax error" := rfl

/-- C4: for every entry whose emitted values are quote-free, decoding the
attributes of its encoded ApplicationFile element yields the labels in
order with the values offset by one field: the EntryPoint value stands
under the DataFile label, the IsMainConfigFile value under both the
EntryPoint and IsMainConfigFile labels, while FileName, RelativePath,
Optional and GroupName stand under their own labels. -/
theorem construct_line_attribute_offset (cf : CustomisationFile) (hg : goodFile cf) :
    applicationFileAttrs cf =
      some ([("FileName", cf.FileName), ("RelativePath", cf.RelativePath),
        ("DataFile", cf.EntryPoint), ("EntryPoint", cf.IsMainConfigFile),
        ("IsMainConfigFile", cf.IsMainConfigFile), ("Optional", cf.Optional),
        ("GroupName", cf.GroupName)], []) := by
  unfold applicationFileAttrs
  have hld : (ConstructLineForCustomFilesRegistryKey cf).data =
      "  <ApplicationFile".data ++ lineTailChunk cf [] := by
    have := line_shape cf []
    rwa [List.append_nil] at this
  rw [hld, dropPrefixChars_append]
  show parseAttrs (lineTailChunk cf []).length (lineTailChunk cf []) = _
  obtain ⟨k, hk⟩ := lineTailChunk_length cf []
  rw [hk, parseAttrs_lineTail k cf [] hg]
  rfl

theorem goodFile_decodeOffset (cf : CustomisationFile) (hg : goodFile cf) :
    goodFile (decodeOffset cf) := by
  obtain ⟨h1, h2, h3, h4, h5, h6⟩ := hg
  exact ⟨h1, h2, h4, h4, h5, h6⟩

theorem plainFile_decodeOffset (cf : CustomisationFile) (hp : plainFile cf) :
    plainFile (decodeOffset cf) := by
  obtain ⟨h1, h2, h3, h4, h5, h6⟩ := hp
  exact ⟨h1, h2, h4, h4, h5, h6⟩

theorem decodeOffset_twice_eq_iff (cf : CustomisationFile) :
    decodeOffset (decodeOffset cf) = decodeOffset cf ↔
      cf.EntryPoint = cf.IsMainConfigFile := by
  unfold decodeOffset
  simp only [CustomisationFile.mk.injEq, and_true, true_and]
  exact eq_comm

theorem applyOldFile_id (newFile oldFile : CustomisationFile) :
    (applyOldFile newFile oldFile).FileName = newFile.FileName ∧
    (applyOldFile newFile oldFile).RelativePath = newFile.RelativePath := by
  unfold applyOldFile overwriteOptions
  split_ifs <;> exact ⟨rfl, rfl⟩

theorem applyOldOptions_id (oldFilesList : List CustomisationFile) :
    ∀ newFile : CustomisationFile,
      (applyOldOptions oldFilesList newFile).FileName = newFile.FileName ∧
      (applyOldOptions oldFilesList newFile).RelativePath = newFile.RelativePath := by
  induction oldFilesList with
  | nil => exact fun _ => ⟨rfl, rfl⟩
  | cons o t ih =>
    intro newFile
    show (applyOldOptions t (applyOldFile newFile o)).FileName = _ ∧
      (applyOldOptions t (applyOldFile newFile o)).RelativePath = _
    obtain ⟨h1, h2⟩ := ih (applyOldFile newFile o)
    obtain ⟨h3, h4⟩ := applyOldFile_id newFile o
    exact ⟨h1.trans h3, h2.trans h4⟩

theorem applyOldOptions_last_wins (oldFilesList : List CustomisationFile)
    (newFile : CustomisationFile) :
    applyOldOptions oldFilesList newFile =
      (Option.elim ((oldFilesList.filter fun old =>
          decide (old.FileName = newFile.FileName ∧
            old.RelativePath = newFile.RelativePath)).getLast?)
        newFile (overwriteOptions newFile)) := by
  induction oldFilesList using List.reverseRecOn with
  | nil => rfl
  | append_singleton xs x ih =>
    have hfoldl : applyOldOptions (xs ++ [x]) newFile =
        applyOldFile (applyOldOptions xs newFile) x := by
      unfold applyOldOptions
      rw [List.foldl_append]
      rfl
    rw [hfoldl, List.filter_append]
    obtain ⟨hid1, hid2⟩ := applyOldOptions_id xs newFile
    by_cases hp : x.FileName = newFile.FileName ∧ x.RelativePath = newFile.RelativePath
    · have hfx : (List.filter (fun old =>
          decide (old.FileName = newFile.FileName ∧
            old.RelativePath = newFile.RelativePath)) [x]) = [x] := by
        simp [List.filter, hp]
      rw [hfx, List.getLast?_concat]
      have hax : applyOldFile (applyOldOptions xs newFile) x =
          overwriteOptions (applyOldOptions xs newFile) x := by
        unfold applyOldFile
        rw [if_pos ⟨hid1 ▸ hp.1, hid2 ▸ hp.2⟩]
      rw [hax, ih]
      rcases (List.filter _ xs).getLast? with _ | o
      · rfl
      · rfl
    · have hfx : (List.filter (fun old =>
          decide (old.FileName = newFile.FileName ∧
            old.RelativePath = newFile.RelativePath)) [x]) = [] := by
        simp [List.filter, hp]
      rw [hfx, List.append_nil]
      have hax : applyOldFile (applyOldOptions xs newFile) x =
          applyOldOptions xs newFile := by
        unfold applyOldFile
        rw [if_neg]
        rw [hid1, hid2]
        exact hp
      rw [hax, ih]

theorem findCustomFilesIdx_none_iff (rvs : List RegistryValue) :
    findCustomFilesIdx rvs = none ↔ ∀ v ∈ rvs, v.Name ≠ "CustomFiles" := by
  induction rvs with
  | nil => simp [findCustomFilesIdx]
  | cons v rest ih =>
    unfold findCustomFilesIdx
    by_cases hv : v.Name = "CustomFiles"
    · rw [if_pos hv]
      simp only [List.mem_cons]
      constructor
      · intro h
        cases h
      · intro h
        exact absurd hv (h v (Or.inl rfl))
    · rw [if_neg hv, Option.map_eq_none', ih]
      constructor
      · intro h v' hv'
        rcases List.mem_cons.mp hv' with h1 | h1
        · rw [h1]
          exact hv
        · exact h v' h1
      · intro h v' hv'
        exact h v' (List.mem_cons_of_mem v hv')

/-- C1: when the registry collection has a CustomFiles entry whose value
decodes, the merge succeeds and maps every fresh entry through the prior
list; per entry, the five option fields come from the last prior entry
sharing the (FileName, RelativePath) identity, and an entry without a prior
match is returned unchanged. -/
theorem add_manually_added_options_merge (rvs : List RegistryValue)
    (finalFilesList : List CustomisationFile) (cfKeyId : Nat) (data : String)
    (oldFilesList : List CustomisationFile)
    (hfind : findCustomFilesIdx rvs = some (cfKeyId, data))
    (hparse : ParseOldCustomFilesValue data = Except.ok oldFilesList) :
    (AddManuallyAddedOptions rvs finalFilesList).1 = none ∧
    (AddManuallyAddedOptions rvs finalFilesList).2.2 =
      finalFilesList.map (applyOldOptions oldFilesList) ∧
    ∀ newFile : CustomisationFile,
      applyOldOptions oldFilesList newFile =
        Option.elim ((oldFilesList.filter fun old =>
            decide (old.FileName = newFile.FileName ∧
              old.RelativePath = newFile.RelativePath)).getLast?)
          newFile (overwriteOptions newFile) := by
  simp only [AddManuallyAddedOptions, hfind, hparse]
  exact ⟨trivial, trivial, fun newFile => applyOldOptions_last_wins oldFilesList newFile⟩

/-- C6: the merge returns ErrCustomFilesNotFound exactly when no registry
entry is named CustomFiles; when the first CustomFiles entry fails to
decode, the decode error is returned instead; and in every error case both
the registry collection and the fresh file list are returned unchanged. -/
theorem add_manually_added_options_errors (rvs : List RegistryValue)
    (finalFilesList : List CustomisationFile) :
    ((AddManuallyAddedOptions rvs finalFilesList).1 =
        some MergeError.customFilesNotFound ↔
      ∀ v ∈ rvs, v.Name ≠ "CustomFiles") ∧
    (∀ cfKeyId data msg, findCustomFilesIdx rvs = some (cfKeyId, data) →
      ParseOldCustomFilesValue data = Except.error msg →
      AddManuallyAddedOptions rvs finalFilesList =
        (some (MergeError.decodeError msg), rvs, finalFilesList)) ∧
    (∀ e, (AddManuallyAddedOptions rvs finalFilesList).1 = some e →
      (AddManuallyAddedOptions rvs finalFilesList).2.1 = rvs ∧
      (AddManuallyAddedOptions rvs finalFilesList).2.2 = finalFilesList) := by
  refine ⟨?_, ?_, ?_⟩
  · rcases hf : findCustomFilesIdx rvs with _ | ⟨cfKeyId, data⟩
    · unfold AddManuallyAddedOptions
      rw [hf]
      exact iff_of_true rfl ((findCustomFilesIdx_none_iff rvs).mp hf)
    · simp only [AddManuallyAddedOptions, hf]
      have hnot : ¬ ∀ v ∈ rvs, v.Name ≠ "CustomFiles" := by
        intro h
        rw [(findCustomFilesIdx_none_iff rvs).mpr h] at hf
        cases hf
      rcases hp : ParseOldCustomFilesValue data with msg | oldFiles
      all_goals simp only [hp]
      · refine iff_of_false ?_ hnot
        intro h
        cases h
      · refine iff_of_false ?_ hnot
        intro h
        cases h
  · intro cfKeyId data msg hfind hparse
    simp only [AddManuallyAddedOptions, hfind, hparse]
  · intro e he
    rcases hf : findCustomFilesIdx rvs with _ | ⟨cfKeyId, data⟩
    · unfold AddManuallyAddedOptions
      rw [hf]
      exact ⟨rfl, rfl⟩
    · rcases hp : ParseOldCustomFilesValue data with msg | oldFiles
      · simp only [AddManuallyAddedOptions, hf, hp]
        exact ⟨trivial, trivial⟩
      · exfalso
        simp only [AddManuallyAddedOptions, hf, hp] at he
        cases he

theorem collectFolders_ok (stat : String → Except String Bool)
    (joinPath : String → String → String) (directory : String)
    (d : String → Bool) :
    ∀ entries : List String,
      (∀ e ∈ entries, stat (joinPath directory e) = Except.ok (d e)) →
      collectFolders stat joinPath directory entries =
        Except.ok (entries.filter d) := by
  intro entries
  induction entries with
  | nil => intro _; rfl
  | cons e rest ih =>
    intro h
    have he : stat (joinPath directory e) = Except.ok (d e) :=
      h e (List.mem_cons_self e rest)
    have hr := ih fun x hx => h x (List.mem_cons_of_mem e hx)
    simp only [collectFolders, he, hr]
    rcases hd : d e with _ | _
    · simp [List.filter, hd, Except.map]
    · simp [List.filter, hd, Except.map]

/-- C8: a directory-read error is returned as an io error; on a successful
read the function returns exactly the entries the stat oracle marks as
directories, or, when that list is empty, the constructed string error
naming the directory, which is distinct from every io error. -/
theorem get_customisation_folders_list_spec
    (stat : String → Except String Bool)
    (joinPath : String → String → String) (directory : String) :
    (∀ e, GetCustomisationFoldersList (Except.error e) stat joinPath directory =
      Except.error (GoError.ioErr e)) ∧
    (∀ (entries : List String) (d : String → Bool),
      (∀ x ∈ entries, stat (joinPath directory x) = Except.ok (d x)) →
      GetCustomisationFoldersList (Except.ok entries) stat joinPath directory =
        (if entries.filter d = [] then
          Except.error (GoError.strError
            ("Directory \x22" ++ directory ++ "\x22 does not contain subdirectories"))
        else Except.ok (entries.filter d))) ∧
    (∀ m m', GoError.strError m ≠ GoError.ioErr m') := by
  refine ⟨fun e => rfl, ?_, fun m m' h => by cases h⟩
  intro entries d hstat
  have hc := collectFolders_ok stat joinPath directory d entries hstat
  simp only [GetCustomisationFoldersList, hc]
  rcases hf : entries.filter d with _ | ⟨x, xs⟩
  · simp
  · simp

/-- C9: when the version probe fails, GetFileVersion yields the zero
quadruple together with ErrVersionNotExist, yet ExtractCustomFileInfo still
returns a full candidate with a nil error and the zero version; no probe
outcome can make it fail once the relative path is computed. -/
theorem extract_version_probe_failure (dirOf : String → String) (name : String)
    (modTime : Nat) (fullPath rp : String) :
    GetFileVersion none = (⟨0, 0, 0, 0, 0⟩, some "version not exsist") ∧
    (∀ probe, ∃ cf, ExtractCustomFileInfo (Except.ok rp) dirOf probe name
      modTime fullPath = Except.ok cf) ∧
    ExtractCustomFileInfo (Except.ok rp) dirOf none name modTime fullPath =
      Except.ok
        { FileName := name,
          RelativePath := if dirOf rp = "." then "" else dirOf rp,
          DataFile := "false", EntryPoint := "false",
          IsMainConfigFile := "false", Optional := "false", GroupName := "",
          SourcePath := fullPath, LastWriteTime := modTime,
          Version := ⟨0, 0, 0, 0, 0⟩ } :=
  ⟨rfl, fun _ => ⟨_, rfl⟩, rfl⟩

/-- Witness for C4 at a concrete entry: the encoded a.dll line decodes to the
offset attribute list. -/
theorem construct_line_attribute_offset_witness :
    goodFile sampleOldA ∧
    applicationFileAttrs sampleOldA =
      some ([("FileName", "a.dll"), ("RelativePath", ""), ("DataFile", "false"),
        ("EntryPoint", "false"), ("IsMainConfigFile", "false"),
        ("Optional", "false"), ("GroupName", "")], []) :=
  ⟨by decide, construct_line_attribute_offset sampleOldA (by decide)⟩

set_option maxRecDepth 16000 in
/-- Witness for C1 at a concrete state: the prior list has two entries for
the a.dll identity carrying groups g1 and g2, and the merged entry takes the
options of the later g2 entry. -/
theorem add_manually_added_options_merge_witness :
    findCustomFilesIdx
        [⟨"CustomFiles", ConstructCustomFilesRegistryKey [sampleOldG1, sampleOldG2]⟩] =
      some (0, ConstructCustomFilesRegistryKey [sampleOldG1, sampleOldG2]) ∧
    ParseOldCustomFilesValue (ConstructCustomFilesRegistryKey [sampleOldG1, sampleOldG2]) =
      Except.ok [decodeOffset sampleOldG1, decodeOffset sampleOldG2] ∧
    (AddManuallyAddedOptions
        [⟨"CustomFiles", ConstructCustomFilesRegistryKey [sampleOldG1, sampleOldG2]⟩]
        [sampleOldG1]).1 = none ∧
    (AddManuallyAddedOptions
        [⟨"CustomFiles", ConstructCustomFilesRegistryKey [sampleOldG1, sampleOldG2]⟩]
        [sampleOldG1]).2.2 =
      [sampleOldG1].map
        (applyOldOptions [decodeOffset sampleOldG1, decodeOffset sampleOldG2]) ∧
    applyOldOptions [decodeOffset sampleOldG1, decodeOffset sampleOldG2] sampleOldG1 =
      overwriteOptions sampleOldG1 (decodeOffset sampleOldG2) := by
  have h := add_manually_added_options_merge
    [⟨"CustomFiles", ConstructCustomFilesRegistryKey [sampleOldG1, sampleOldG2]⟩]
    [sampleOldG1] 0 (ConstructCustomFilesRegistryKey [sampleOldG1, sampleOldG2])
    [decodeOffset sampleOldG1, decodeOffset sampleOldG2] rfl rfl
  exact ⟨rfl, rfl, h.1, h.2.1, rfl⟩

set_option maxRecDepth 8000 in
/-- Witness for C6 at concrete states: a collection without a CustomFiles
entry yields the sentinel error, a CustomFiles entry with undecodable data
yields the decode error with the state unchanged, and the decode-error case
is also exercised on a value the program itself can produce, an encoded
entry whose GroupName holds a bare ampersand, which the strict decoder
rejects. -/
theorem add_manually_added_options_errors_witness :
    (AddManuallyAddedOptions [⟨"AddCustomFile", "True"⟩] []).1 =
      some MergeError.customFilesNotFound ∧
    AddManuallyAddedOptions [⟨"CustomFiles", "bad"⟩] [] =
      (some (MergeError.decodeError "XML syntax error"),
        [⟨"CustomFiles", "bad"⟩], []) ∧
    AddManuallyAddedOptions
        [⟨"CustomFiles", ConstructCustomFilesRegistryKey [sampleAmp]⟩] [] =
      (some (MergeError.decodeError "XML syntax error"),
        [⟨"CustomFiles", ConstructCustomFilesRegistryKey [sampleAmp]⟩], []) :=
  ⟨(add_manually_added_options_errors [⟨"AddCustomFile", "True"⟩] []).1.mpr
      (by decide),
    (add_manually_added_options_errors [⟨"CustomFiles", "bad"⟩] []).2.1 0 "bad"
      "XML syntax error" rfl rfl,
    (add_manually_added_options_errors
        [⟨"CustomFiles", ConstructCustomFilesRegistryKey [sampleAmp]⟩] []).2.1 0
      (ConstructCustomFilesRegistryKey [sampleAmp]) "XML syntax error" rfl rfl⟩

/-- Witness for C8 at a concrete directory: a listing with one subdirectory
and one file keeps only the subdirectory, and a listing with only the file
yields the constructed string error. -/
theorem get_customisation_folders_list_spec_witness :
    GetCustomisationFoldersList (Except.ok ["sub", "f.txt"]) sampleStat
      sampleJoin "root" = Except.ok ["sub"] ∧
    GetCustomisationFoldersList (Except.ok ["f.txt"]) sampleStat
      sampleJoin "root" =
      Except.error (GoError.strError
        "Directory \x22root\x22 does not contain subdirectories") := by
  have h := (get_customisation_folders_list_spec sampleStat sampleJoin "root").2.1
  constructor
  · have h1 := h ["sub", "f.txt"] (fun e => e == "sub") (by
      intro x hx
      rcases List.mem_cons.mp hx with rfl | hx2
      · rfl
      · rw [List.mem_singleton] at hx2
        subst hx2
        rfl)
    rw [if_neg (by decide)] at h1
    exact h1
  · have h2 := h ["f.txt"] (fun e => e == "sub") (by
      intro x hx
      rw [List.mem_singleton] at hx
      subst hx
      rfl)
    rw [if_pos (by decide)] at h2
    exact h2

/-- Witness for C9 at a concrete file: a failed probe still yields a full
candidate with the zero version and a nil error. -/
theorem extract_version_probe_failure_witness :
    GetFileVersion none = (⟨0, 0, 0, 0, 0⟩, some "version not exsist") ∧
    ExtractCustomFileInfo (Except.ok "sub/x") (fun s => s) none "x.dll" 5
        "/root/x.dll" =
      Except.ok
        { FileName := "x.dll", RelativePath := "sub/x", DataFile := "false",
          EntryPoint := "false", IsMainConfigFile := "false",
          Optional := "false", GroupName := "", SourcePath := "/root/x.dll",
          LastWriteTime := 5, Version := ⟨0, 0, 0, 0, 0⟩ } := by
  have h := extract_version_probe_failure (fun s => s) "x.dll" 5 "/root/x.dll"
    "sub/x"
  exact ⟨h.1, h.2.2⟩
